import Mathlib

/-!
# gadb: the adb host-server client (`client.go`)

A shallow embedding of the command dispatcher of `client.go` and of the Go
standard-library functions it calls (`strings.Split`, `strings.Fields`,
`strings.TrimSpace`, `strings.HasPrefix`, `strconv.ParseInt`, the `%s`/`%d`
verbs of `fmt.Sprintf`).

Conventions of the embedding.

* A Go `string` holding text is a list of Unicode code points, `List Char`
  (the payloads are decoded text; a byte that is not ASCII is always part of
  a multi-byte code point).
* A Go function returning `(T, error)` is a pair `T × Option GoError`, the
  second component being `none` for a `nil` error.
* A run-time panic (index out of range) is the `error` side of
  `Except GoPanic`.
* Every call made on the transport is recorded, in order, in a trace
  (`Run.calls`), so that what is sent on the wire can be stated.
-/

namespace Gadb

/-! ## Go values -/

/-- The two sentinel errors of `strconv`. -/
inductive NumErrKind
  | ErrSyntax
  | ErrRange
  deriving DecidableEq, Repr

/-- A Go `error` value: either an `errors.errorString` (what `fmt.Errorf`
without `%w` and the transport produce) or a `*strconv.NumError`. -/
inductive GoError
  | errorString (s : List Char)
  | numError (func : List Char) (num : List Char) (err : NumErrKind)
  deriving DecidableEq, Repr

/-- A Go run-time panic. -/
inductive GoPanic
  | indexOutOfRange (index : Nat) (length : Nat)
  | sliceBoundsOutOfRange (low : Nat) (length : Nat)
  deriving DecidableEq, Repr

deriving instance DecidableEq for Except

/-- The index expression `xs[i]` on a slice: panics when `i` is not below `len(xs)`. -/
def index {α : Type} (xs : List α) (i : Nat) : Except GoPanic α :=
  match xs.get? i with
  | some x => .ok x
  | none => .error (.indexOutOfRange i xs.length)

/-- The slice expression `xs[low:]`: panics when `low` exceeds `len(xs)`. -/
def sliceFrom {α : Type} (xs : List α) (low : Nat) : Except GoPanic (List α) :=
  if low ≤ xs.length then .ok (xs.drop low) else .error (.sliceBoundsOutOfRange low xs.length)

/-! ## `unicode.IsSpace`, `strings.Fields`, `strings.TrimSpace` -/

/-- Go `unicode.IsSpace`: the Latin-1 spaces `\t \n \v \f \r`, space, U+0085,
U+00A0, and the other code points with the White_Space property. -/
def isSpace (c : Char) : Bool :=
  let n := c.toNat
  n == 0x09 || n == 0x0A || n == 0x0B || n == 0x0C || n == 0x0D || n == 0x20 ||
  n == 0x85 || n == 0xA0 || n == 0x1680 || (0x2000 ≤ n && n ≤ 0x200A) ||
  n == 0x2028 || n == 0x2029 || n == 0x202F || n == 0x205F || n == 0x3000

/-- The scan of `strings.Fields`: `cur` is the field being read (empty between
fields); a white-space code point ends it. -/
def fieldsFrom (cur : List Char) : List Char → List (List Char)
  | [] => if cur.isEmpty then [] else [cur]
  | c :: cs =>
    if isSpace c then
      (if cur.isEmpty then fieldsFrom [] cs else cur :: fieldsFrom [] cs)
    else fieldsFrom (cur ++ [c]) cs

/-- Go `strings.Fields`: the maximal runs of non-white-space code points, in order. -/
def Fields (s : List Char) : List (List Char) := fieldsFrom [] s

/-- Go `strings.TrimSpace`: the string without its leading and trailing white space. -/
def TrimSpace (s : List Char) : List Char := (s.dropWhile isSpace).rdropWhile isSpace

/-! ## `strings.Split`, `strings.HasPrefix` -/

/-- Prepends a code point to the first piece of a split. -/
def consHead (c : Char) : List (List Char) → List (List Char)
  | [] => [[c]]
  | h :: t => (c :: h) :: t

/-- The scan of `strings.Split` for a non-empty separator: `skip` counts the
code points of a separator occurrence still to be passed over. -/
def splitFrom (sep : List Char) : Nat → List Char → List (List Char)
  | _, [] => [[]]
  | skip + 1, _ :: cs => splitFrom sep skip cs
  | 0, c :: cs =>
    if sep.isPrefixOf (c :: cs) then [] :: splitFrom sep (sep.length - 1) cs
    else consHead c (splitFrom sep 0 cs)

/-- Go `strings.Split`: the pieces of `s` between the non-overlapping
occurrences of `sep`, scanning from the left (one more piece than occurrences);
with an empty separator, the code points of `s` one by one. -/
def Split (s sep : List Char) : List (List Char) :=
  if sep.isEmpty then s.map (fun c => [c]) else splitFrom sep 0 s

/-- Go `strings.HasPrefix`: `len(s) >= len(prefix) && s[:len(prefix)] == prefix`. -/
def HasPrefix (s pre : List Char) : Bool :=
  decide (pre.length ≤ s.length) && (s.take pre.length == pre)

/-! ## `strconv.ParseInt`, `fmt.Sprintf` -/

/-- The largest `uint64`. -/
def maxUint64 : Nat := 2 ^ 64 - 1

/-- Go `strconv.lower`: `c | ('x' - 'X')` on a byte. -/
def lower (c : Nat) : Nat := c ||| 0x20

/-- The digit a byte denotes in `strconv.ParseUint`, before the comparison
with the base: `'0'..'9'` give `0..9`, a letter gives `10..35`. -/
def digitOf (c : Nat) : Option Nat :=
  if 48 ≤ c ∧ c ≤ 57 then some (c - 48)
  else if 97 ≤ lower c ∧ lower c ≤ 122 then some (lower c - 97 + 10)
  else none

/-- The digit loop of `strconv.ParseUint` (explicit base, so no underscore is
accepted), on `uint64` arithmetic. A code point that is not ASCII is encoded by
bytes that are no digit, hence a syntax error. The result is the value and the
kind of error, if any. -/
def parseUintLoop (base maxVal cutoff : Nat) : Nat → List Char → Nat × Option NumErrKind
  | n, [] => (n, none)
  | n, c :: cs =>
    if 128 ≤ c.toNat then (0, some .ErrSyntax)
    else
      match digitOf c.toNat with
      | none => (0, some .ErrSyntax)
      | some d =>
        if base ≤ d then (0, some .ErrSyntax)
        else if cutoff ≤ n then (maxVal, some .ErrRange)
        else
          let n0 := n * base % 2 ^ 64
          let n1 := (n0 + d) % 2 ^ 64
          if n1 < n0 ∨ maxVal < n1 then (maxVal, some .ErrRange)
          else parseUintLoop base maxVal cutoff n1 cs

/-- Go `strconv.ParseUint(s, base, bitSize)` for an explicit base `2..36` and a
bit size `1..64` (`client.go` only reaches it through `ParseInt(resp, 16, 64)`).
Its error is always a `*NumError` for `s`; it is given by its kind. -/
def ParseUint (s : List Char) (base bitSize : Nat) : Nat × Option NumErrKind :=
  if s.isEmpty then (0, some .ErrSyntax)
  else
    let cutoff := maxUint64 / base + 1
    let maxVal := (2 ^ bitSize % 2 ^ 64 + 2 ^ 64 - 1) % 2 ^ 64
    parseUintLoop base maxVal cutoff 0 s

/-- The conversion `int64(x)`: two's complement on 64 bits. -/
def toInt64 (x : Int) : Int := (x + 2 ^ 63) % 2 ^ 64 - 2 ^ 63

/-- Go `strconv.ParseInt(s, base, bitSize)` for an explicit base `2..36` and a
bit size `1..64`: an optional sign `+` or `-`, then `ParseUint`, then the range
check against `1 << (bitSize-1)`. -/
def ParseInt (s : List Char) (base bitSize : Nat) : Int × Option GoError :=
  match s with
  | [] => (0, some (.numError "ParseInt".toList s .ErrSyntax))
  | c0 :: rest =>
    let neg := c0 == '-'
    let s1 := if c0 == '+' || c0 == '-' then rest else s
    match ParseUint s1 base bitSize with
    | (_, some .ErrSyntax) => (0, some (.numError "ParseInt".toList s .ErrSyntax))
    | (un, _) =>
      let cutoff : Nat := 2 ^ (bitSize - 1)
      if !neg && decide (cutoff ≤ un) then
        (toInt64 ((cutoff : Int) - 1), some (.numError "ParseInt".toList s .ErrRange))
      else if neg && decide (cutoff < un) then
        (toInt64 (-toInt64 cutoff), some (.numError "ParseInt".toList s .ErrRange))
      else
        let n := toInt64 un
        (if neg then toInt64 (-n) else n, none)

/-- The width of Go `int` (`strconv.IntSize`), which the build target fixes:
32 bits (386, arm) or 64 bits (amd64, arm64). -/
inductive IntSize
  | bits32
  | bits64
  deriving DecidableEq, Repr

/-- The number of bits of `int` on the target. -/
def IntSize.bits : IntSize → Nat
  | .bits32 => 32
  | .bits64 => 64

/-- The conversion `int(v)` of an `int64`: two's complement on the bits of `int`. -/
def toInt (intSize : IntSize) (v : Int) : Int :=
  (v + 2 ^ (intSize.bits - 1)) % 2 ^ intSize.bits - 2 ^ (intSize.bits - 1)

/-- The `%d` verb of `fmt.Sprintf` on an `int`: decimal digits, `-` first when negative. -/
def formatInt : Int → List Char
  | .ofNat n => Nat.toDigits 10 n
  | .negSucc n => '-' :: Nat.toDigits 10 (n + 1)

/-! ## The transport and the client -/

/-- Modelled from the spec: the transport session of `transport.go`, which is
not among the sources. A session serves one exchange: `Send` writes the framed
command, `VerifyResponse` reads the 4-byte status (an error on `FAIL`),
`UnpackString` reads one length-prefixed payload, `Close` releases the
connection. What the server answers is a function of the command that was
sent on the session. -/
structure transport where
  Send : List Char → Option GoError
  VerifyResponse : List Char → Option GoError
  UnpackString : List Char → List Char × Option GoError
  Close : Option GoError

/-- Modelled from the spec: `newTransport(address)` of `transport.go`, opening
a connection to `host:port`; it is a parameter of every operation. -/
abbrev NewTransport := List Char → transport × Option GoError

/-- One call made on the transport layer. -/
inductive Call
  | newTransport (address : List Char)
  | Send (command : List Char)
  | VerifyResponse
  | UnpackString
  | Close
  deriving DecidableEq, Repr

/-- The outcome of running an operation: what it returns and the transport
calls it made, in order. -/
structure Run (α : Type) where
  result : α
  calls : List Call

/-- The commands written by the `Send` calls of a trace, in order. -/
def sentCommands : List Call → List (List Char)
  | [] => []
  | .Send cmd :: cs => cmd :: sentCommands cs
  | _ :: cs => sentCommands cs

def AdbServerPort : Int := 5037
def AdbDaemonPort : Int := 5555

structure Client where
  host : List Char
  port : Int
  deriving DecidableEq, Repr

/-- A Go `map[string]string`, as the list of its bindings (keys distinct). -/
abbrev GoMap := List (List Char × List Char)

/-- The assignment `m[k] = v`. -/
def mapSet : GoMap → List Char → List Char → GoMap
  | [], k, v => [(k, v)]
  | (k0, v0) :: m, k, v => if k0 = k then (k, v) :: m else (k0, v0) :: mapSet m k v

/-- The lookup `m[k]` with its presence flag. -/
def mapGet (m : GoMap) (k : List Char) : Option (List Char) := m.lookup k

/-- Modelled from the spec: the `Device` value of `device.go` (not among the
sources): the client that produced it, its serial and its attributes. -/
structure Device where
  adbClient : Client
  serial : List Char
  attrs : GoMap
  deriving DecidableEq, Repr

/-- Modelled from the spec: the `DeviceForward` value (declared outside
`client.go`): one port-forward rule. -/
structure DeviceForward where
  Serial : List Char
  Local : List Char
  Remote : List Char
  deriving DecidableEq, Repr

/-- Method `Client.createTransport`: `newTransport(fmt.Sprintf("%s:%d", c.host, c.port))`. -/
def createTransport (newTransport : NewTransport) (c : Client) : Run (transport × Option GoError) :=
  let address := c.host ++ ":".toList ++ formatInt c.port
  ⟨newTransport address, [.newTransport address]⟩

/-- Method `Client.executeCommand`. The deferred `tp.Close()` runs last on every path
after the transport was opened. `onlyVerifyResponse[0]` is read after the
defaulting of the variadic argument, so that the slice has an element 0. -/
def executeCommand (newTransport : NewTransport) (c : Client) (command : List Char)
    (onlyVerifyResponse : List Bool) : Run (List Char × Option GoError) :=
  let onlyVerifyResponse := if onlyVerifyResponse.length = 0 then [false] else onlyVerifyResponse
  let ct := createTransport newTransport c
  match ct.result with
  | (_, some err) => ⟨([], some err), ct.calls⟩
  | (tp, none) =>
    match tp.Send command with
    | some err => ⟨([], some err), ct.calls ++ [.Send command, .Close]⟩
    | none =>
      match tp.VerifyResponse command with
      | some err => ⟨([], some err), ct.calls ++ [.Send command, .VerifyResponse, .Close]⟩
      | none =>
        if onlyVerifyResponse.headD false then
          ⟨([], none), ct.calls ++ [.Send command, .VerifyResponse, .Close]⟩
        else
          match tp.UnpackString command with
          | (_, some err) =>
            ⟨([], some err), ct.calls ++ [.Send command, .VerifyResponse, .UnpackString, .Close]⟩
          | (resp, none) =>
            ⟨(resp, none), ct.calls ++ [.Send command, .VerifyResponse, .UnpackString, .Close]⟩

/-- Method `Client.ServerVersion`; `intSize` is the width of `int` on the build
target, which `version = int(v)` converts to. -/
def ServerVersion (intSize : IntSize) (newTransport : NewTransport) (c : Client) :
    Run (Int × Option GoError) :=
  let r := executeCommand newTransport c "host:version".toList []
  match r.result with
  | (_, some err) => ⟨(0, some err), r.calls⟩
  | (resp, none) =>
    match ParseInt resp 16 64 with
    | (_, some err) => ⟨(0, some err), r.calls⟩
    | (v, none) => ⟨(toInt intSize v, none), r.calls⟩

/-- The loop of `DeviceSerialList` over the lines of the response. -/
def DeviceSerialList.loop (serials : List (List Char)) :
    List (List Char) → Except GoPanic (List (List Char))
  | [] => .ok serials
  | line :: rest =>
    let fields := Fields line
    if fields.length < 2 then DeviceSerialList.loop serials rest
    else
      match index fields 0 with
      | .error p => .error p
      | .ok f0 => DeviceSerialList.loop (serials ++ [f0]) rest

/-- Method `Client.DeviceSerialList`. -/
def DeviceSerialList (newTransport : NewTransport) (c : Client) :
    Run (Except GoPanic (List (List Char) × Option GoError)) :=
  let r := executeCommand newTransport c "host:devices".toList []
  match r.result with
  | (_, some err) => ⟨.ok ([], some err), r.calls⟩
  | (resp, none) =>
    let lines := Split resp "\n".toList
    match DeviceSerialList.loop [] lines with
    | .error p => ⟨.error p, r.calls⟩
    | .ok serials => ⟨.ok (serials, none), r.calls⟩

/-- The inner loop of `DeviceList` over the tokens `fields[2:]`:
`split := strings.Split(field, ":"); key, val := split[0], split[1]; mapAttrs[key] = val`. -/
def DeviceList.attrsLoop (mapAttrs : GoMap) : List (List Char) → Except GoPanic GoMap
  | [] => .ok mapAttrs
  | field :: rest =>
    let split := Split field ":".toList
    match index split 0 with
    | .error p => .error p
    | .ok key =>
      match index split 1 with
      | .error p => .error p
      | .ok val => DeviceList.attrsLoop (mapSet mapAttrs key val) rest

/-- The loop of `DeviceList` over the lines of the response (`debugLog` only
writes to the log). -/
def DeviceList.loop (c : Client) (devices : List Device) :
    List (List Char) → Except GoPanic (List Device)
  | [] => .ok devices
  | line0 :: rest =>
    let line := TrimSpace line0
    if line = [] then DeviceList.loop c devices rest
    else
      let fields := Fields line
      if fields.length < 5 then DeviceList.loop c devices rest
      else
        match index fields 0 with
        | .error p => .error p
        | .ok f0 =>
          if f0.length = 0 then DeviceList.loop c devices rest
          else
            match sliceFrom fields 2 with
            | .error p => .error p
            | .ok sliceAttrs =>
              match DeviceList.attrsLoop [] sliceAttrs with
              | .error p => .error p
              | .ok mapAttrs => DeviceList.loop c (devices ++ [⟨c, f0, mapAttrs⟩]) rest

/-- Method `Client.DeviceList`. -/
def DeviceList (newTransport : NewTransport) (c : Client) :
    Run (Except GoPanic (List Device × Option GoError)) :=
  let r := executeCommand newTransport c "host:devices-l".toList []
  match r.result with
  | (_, some err) => ⟨.ok ([], some err), r.calls⟩
  | (resp, none) =>
    let lines := Split resp "\n".toList
    match DeviceList.loop c [] lines with
    | .error p => ⟨.error p, r.calls⟩
    | .ok devices => ⟨.ok (devices, none), r.calls⟩

/-- The loop of `ForwardList` over the lines of the response. -/
def ForwardList.loop (deviceForward : List DeviceForward) :
    List (List Char) → Except GoPanic (List DeviceForward)
  | [] => .ok deviceForward
  | line0 :: rest =>
    let line := TrimSpace line0
    if line = [] then ForwardList.loop deviceForward rest
    else
      let fields := Fields line
      match index fields 0 with
      | .error p => .error p
      | .ok f0 =>
        match index fields 1 with
        | .error p => .error p
        | .ok f1 =>
          match index fields 2 with
          | .error p => .error p
          | .ok f2 => ForwardList.loop (deviceForward ++ [⟨f0, f1, f2⟩]) rest

/-- Method `Client.ForwardList`. -/
def ForwardList (newTransport : NewTransport) (c : Client) :
    Run (Except GoPanic (List DeviceForward × Option GoError)) :=
  let r := executeCommand newTransport c "host:list-forward".toList []
  match r.result with
  | (_, some err) => ⟨.ok ([], some err), r.calls⟩
  | (resp, none) =>
    let lines := Split resp "\n".toList
    match ForwardList.loop [] lines with
    | .error p => ⟨.error p, r.calls⟩
    | .ok deviceForward => ⟨.ok (deviceForward, none), r.calls⟩

/-- Method `Client.Connect`: `port` is the variadic argument; `port[0]` is read after
its defaulting, so that the slice has an element 0. -/
def Connect (newTransport : NewTransport) (c : Client) (ip : List Char) (port : List Int) :
    Run (Option GoError) :=
  let port := if port.length = 0 then [AdbDaemonPort] else port
  let r := executeCommand newTransport c
    ("host:connect:".toList ++ ip ++ ":".toList ++ formatInt (port.headD 0)) []
  match r.result with
  | (_, some err) => ⟨some err, r.calls⟩
  | (resp, none) =>
    if !HasPrefix resp "connected to".toList && !HasPrefix resp "already connected to".toList then
      ⟨some (.errorString ("adb connect: ".toList ++ resp)), r.calls⟩
    else ⟨none, r.calls⟩

/-- Method `Client.CommandRun`: `executeCommand` with the same arguments. -/
def CommandRun (newTransport : NewTransport) (c : Client) (command : List Char)
    (onlyVerifyResponse : List Bool) : Run (List Char × Option GoError) :=
  executeCommand newTransport c command onlyVerifyResponse

/-- Method `Client.ForwardKillAll`: `_, err = c.executeCommand("host:killforward-all", true)`. -/
def ForwardKillAll (newTransport : NewTransport) (c : Client) : Run (Option GoError) :=
  let r := executeCommand newTransport c "host:killforward-all".toList [true]
  ⟨r.result.2, r.calls⟩

/-- Method `Client.Disconnect`: `port` is the variadic argument; `port[0]` is read
under the guard `len(port) != 0`. -/
def Disconnect (newTransport : NewTransport) (c : Client) (ip : List Char) (port : List Int) :
    Run (Option GoError) :=
  let cmd :=
    if port.length ≠ 0 then
      "host:disconnect:".toList ++ ip ++ ":".toList ++ formatInt (port.headD 0)
    else "host:disconnect:".toList ++ ip
  let r := executeCommand newTransport c cmd []
  match r.result with
  | (_, some err) => ⟨some err, r.calls⟩
  | (resp, none) =>
    if !HasPrefix resp "disconnected".toList then
      ⟨some (.errorString ("adb disconnect: ".toList ++ resp)), r.calls⟩
    else ⟨none, r.calls⟩

/-- Method `Client.DisconnectAll`. -/
def DisconnectAll (newTransport : NewTransport) (c : Client) : Run (Option GoError) :=
  let r := executeCommand newTransport c "host:disconnect:".toList []
  match r.result with
  | (_, some err) => ⟨some err, r.calls⟩
  | (resp, none) =>
    if !HasPrefix resp "disconnected everything".toList then
      ⟨some (.errorString ("adb disconnect all: ".toList ++ resp)), r.calls⟩
    else ⟨none, r.calls⟩

/-- Method `Client.KillServer`: open the transport, defer its `Close`, and return
what `tp.Send("host:kill")` returns. -/
def KillServer (newTransport : NewTransport) (c : Client) : Run (Option GoError) :=
  let ct := createTransport newTransport c
  match ct.result with
  | (_, some err) => ⟨some err, ct.calls⟩
  | (tp, none) => ⟨tp.Send "host:kill".toList, ct.calls ++ [.Send "host:kill".toList, .Close]⟩

/-- Function `NewClientWith`: `port` is the variadic argument; `port[0]` is read
after its defaulting. On a failed connection the zero `Client{}` is returned
with the error; otherwise the transport is closed and the client returned. -/
def NewClientWith (newTransport : NewTransport) (host : List Char) (port : List Int) :
    Run (Client × Option GoError) :=
  let port := if port.length = 0 then [AdbServerPort] else port
  let adbClient : Client := ⟨host, port.headD 0⟩
  let ct := createTransport newTransport adbClient
  match ct.result with
  | (_, some err) => ⟨(⟨[], 0⟩, some err), ct.calls⟩
  | (_, none) => ⟨(adbClient, none), ct.calls ++ [.Close]⟩

/-- Function `NewClient`: `NewClientWith("localhost")`. -/
def NewClient (newTransport : NewTransport) : Run (Client × Option GoError) :=
  NewClientWith newTransport "localhost".toList []

/-- Go `strings.Trim(s, cutset)`: `s` without its leading and trailing code
points contained in `cutset`. -/
def Trim (s cutset : List Char) : List Char :=
  (s.dropWhile (fun c => cutset.contains c)).rdropWhile (fun c => cutset.contains c)

/-- Modelled from the spec: `Device.RunShellCommand(cmd, args...)` of
`device.go` (not among the sources), which "runs a shell command on the named
serial, returns trimmed text output or an error". Its outcome is a function of
the serial of the device, the command and its arguments; it is a parameter of
`DeviceTracking`. -/
abbrev RunShellCommand := List Char → List Char → List (List Char) → List Char × Option GoError

/-- The map literal `baseMetas` of `DeviceTracking`. -/
def baseMetas : GoMap :=
  [("serial".toList, "ro.serialno".toList),
   ("name".toList, "ro.product.name".toList),
   ("model".toList, "ro.product.model".toList),
   ("brand".toList, "ro.product.brand".toList),
   ("product".toList, "ro.build.product".toList),
   ("version".toList, "ro.build.version.release".toList)]

/-- The first loop of `DeviceTracking`, over the lines of the response. -/
def DeviceTracking.serialsLoop (serials : List (List Char)) :
    List (List Char) → Except GoPanic (List (List Char))
  | [] => .ok serials
  | line :: rest =>
    let fields := Fields line
    if fields.length < 2 then DeviceTracking.serialsLoop serials rest
    else
      match index fields 0 with
      | .error p => .error p
      | .ok f0 => DeviceTracking.serialsLoop (serials ++ [f0]) rest

/-- The loop `for k, v := range metas[0]` of `DeviceTracking`, over the bindings
of the seed map in the order they are visited. -/
def DeviceTracking.seedLoop (attrs : GoMap) : List (List Char × List Char) → GoMap
  | [] => attrs
  | (k, v) :: rest => DeviceTracking.seedLoop (mapSet attrs k v) rest

/-- The loop `for k, v := range baseMetas` of `DeviceTracking`, over the
bindings in the order they are visited: a failed query is logged and skipped,
a successful one writes `strings.TrimSpace(strings.Trim(command, "\n"))`. -/
def DeviceTracking.propsLoop (shell : RunShellCommand) (serial : List Char) (attrs : GoMap) :
    List (List Char × List Char) → GoMap
  | [] => attrs
  | (k, v) :: rest =>
    match shell serial "getprop".toList [v] with
    | (_, some _) => DeviceTracking.propsLoop shell serial attrs rest
    | (command, none) =>
      DeviceTracking.propsLoop shell serial
        (mapSet attrs k (TrimSpace (Trim command "\n".toList))) rest

/-- The attributes of a new device, `make(map[string]string)`, after
`if len(metas) > 0 { for k, v := range metas[0] { device.attrs[k] = v } }`. -/
def DeviceTracking.seedAttrs (metas : List GoMap) : GoMap :=
  match metas with
  | [] => []
  | m :: _ => DeviceTracking.seedLoop [] m

/-- The second loop of `DeviceTracking`, over the serials. Go leaves the order
of a `range` over a map unspecified and picks it anew at each statement:
`visit i` is the order in which the bindings of `baseMetas` are visited for the
`i`-th serial. The seed map `metas[0]` is visited in the order of its list. -/
def DeviceTracking.devicesLoop (shell : RunShellCommand) (visit : Nat → GoMap) (c : Client)
    (metas : List GoMap) : Nat → List Device → List (List Char) → List Device
  | _, devices, [] => devices
  | i, devices, serial :: rest =>
    let attrs1 := DeviceTracking.seedAttrs metas
    let attrs2 := DeviceTracking.propsLoop shell serial attrs1 (visit i)
    DeviceTracking.devicesLoop shell visit c metas (i + 1) (devices ++ [⟨c, serial, attrs2⟩]) rest

/-- Method `Client.DeviceTracking`: `metas` is the variadic argument. The calls
recorded are those of its own exchange `host:track-devices`; the exchanges of
the shell queries belong to `device.go`. -/
def DeviceTracking (newTransport : NewTransport) (shell : RunShellCommand) (visit : Nat → GoMap)
    (c : Client) (metas : List GoMap) : Run (Except GoPanic (List Device × Option GoError)) :=
  let r := executeCommand newTransport c "host:track-devices".toList []
  match r.result with
  | (_, some err) => ⟨.ok ([], some err), r.calls⟩
  | (resp, none) =>
    let lines := Split resp "\n".toList
    match DeviceTracking.serialsLoop [] lines with
    | .error p => ⟨.error p, r.calls⟩
    | .ok serials =>
      ⟨.ok (DeviceTracking.devicesLoop shell visit c metas 0 [] serials, none), r.calls⟩

/-- A server on which every step of an exchange succeeds and whose payload is
`payload` whatever the command. -/
def okServer (payload : List Char) : NewTransport :=
  fun _ => (⟨fun _ => none, fun _ => none, fun _ => (payload, none), none⟩, none)

/-- A server on which the step `stage` of every exchange fails with `e`
(0: opening the transport, 1: `Send`, 2: `VerifyResponse`, 3: `UnpackString`)
and the other steps succeed. -/
def failingServer (stage : Nat) (e : GoError) (payload : List Char) : NewTransport :=
  fun _ =>
    (⟨fun _ => if stage = 1 then some e else none,
      fun _ => if stage = 2 then some e else none,
      fun _ => (payload, if stage = 3 then some e else none), none⟩,
     if stage = 0 then some e else none)

/-! ## Notions the statements use -/

/-- A blank line: empty or made of white space only. -/
def isBlank (line : List Char) : Bool := line.all isSpace

/-- The forward rule read off the first three fields of a line. -/
def forwardOfLine (line : List Char) : DeviceForward :=
  ⟨(Fields line).getD 0 [], (Fields line).getD 1 [], (Fields line).getD 2 []⟩

/-- The byte is a hexadecimal digit: `0..9`, `a..f` or `A..F`. -/
def hexRange (n : Nat) : Bool :=
  (decide (48 ≤ n) && decide (n ≤ 57)) || (decide (97 ≤ n) && decide (n ≤ 102)) ||
    (decide (65 ≤ n) && decide (n ≤ 70))

/-- The value of a hexadecimal digit given by its byte. -/
def hexVal (n : Nat) : Nat :=
  if n ≤ 57 then n - 48 else if 97 ≤ n then n - 87 else n - 55

/-- The code point is a hexadecimal digit. -/
def isHexDigit (c : Char) : Bool := hexRange c.toNat

/-- The non-negative integer a string of hexadecimal digits denotes in base 16,
most significant digit first. -/
def hexValue (s : List Char) : Nat := s.foldl (fun acc c => 16 * acc + hexVal c.toNat) 0

/-- Valid hex: a non-empty string made only of hexadecimal digits. -/
def isValidHex (s : List Char) : Bool := !s.isEmpty && s.all isHexDigit

/-- Valid hex after an optional sign `+` or `-`. -/
def isSignedHex : List Char → Bool
  | [] => false
  | c :: rest => if c == '+' || c == '-' then isValidHex rest else isValidHex (c :: rest)

/-- The address of the server of a client, as `createTransport` formats it. -/
def addressOf (c : Client) : List Char := c.host ++ ":".toList ++ formatInt c.port

/-- The command `Connect` builds from its arguments. -/
def connectCommand (ip : List Char) (port : List Int) : List Char :=
  "host:connect:".toList ++ ip ++ ":".toList ++
    formatInt ((if port.length = 0 then [AdbDaemonPort] else port).headD 0)

/-- The command of `Disconnect`, as the command vocabulary gives it:
`host:disconnect:<ip>` without a port, `host:disconnect:<ip>:<port>` with one. -/
def disconnectCommand (ip : List Char) : List Int → List Char
  | [] => "host:disconnect:".toList ++ ip
  | p :: _ => "host:disconnect:".toList ++ ip ++ ":".toList ++ formatInt p

/-- The call opens a transport. -/
def isOpenCall : Call → Bool
  | .newTransport _ => true
  | _ => false

/-- The discipline of one run on its transport: exactly one transport is
opened, first; when it was opened, `Close` is called exactly once and is the
last call; when opening failed, nothing is called on a transport. -/
def closedOnce (opened : Bool) (calls : List Call) : Prop :=
  (calls.filter isOpenCall).length = 1 ∧ (calls.head?.map isOpenCall = some true) ∧
    (if opened then calls.count .Close = 1 ∧ calls.getLast? = some .Close
      else calls.filter (fun call => !isOpenCall call) = [])

/-- A well-formed serial: not empty and without any white-space code point. -/
def cleanSerial (s : List Char) : Prop := s ≠ [] ∧ ∀ ch ∈ s, isSpace ch = false

/-- The first field of a line with at least 2 fields, if it is such a line. -/
def serialOfLine (line : List Char) : Option (List Char) :=
  if 2 ≤ (Fields line).length then (Fields line).head? else none

/-- The attribute an enriched device is to hold under `key`: for one of the six
baseline keys whose property query succeeds, the white-space trimmed output of
the query; otherwise what the seed mapping (if any) holds under `key`. -/
def trackedAttr (shell : RunShellCommand) (metas : List GoMap) (serial key : List Char) :
    Option (List Char) :=
  let seeded : Option (List Char) :=
    match metas with
    | [] => none
    | m :: _ => mapGet m key
  match mapGet baseMetas key with
  | none => seeded
  | some prop =>
    match shell serial "getprop".toList [prop] with
    | (out, none) => some (TrimSpace out)
    | (_, some _) => seeded

/-- Two devices are the same value: same client, same serial, and the same
attribute under every key. -/
def sameDevice (d1 d2 : Device) : Prop :=
  d1.adbClient = d2.adbClient ∧ d1.serial = d2.serial ∧
    ∀ key, mapGet d1.attrs key = mapGet d2.attrs key

/-- A shell on which every property query succeeds with the name of the
property between blanks and newlines, except the query of `failing`, which
fails. -/
def sampleShell (failing : List Char) : RunShellCommand :=
  fun _ _ args =>
    if args = [failing] then ([], some (.errorString "closed".toList))
    else ("\n ".toList ++ args.headD [] ++ " \n".toList, none)

/-! ## Facts about the library functions -/

theorem index_cons_zero {α : Type} (x : α) (xs : List α) : index (x :: xs) 0 = .ok x := rfl

theorem index_cons_succ {α : Type} (x : α) (xs : List α) (i : Nat) :
    index (x :: xs) (i + 1) = match index xs i with
      | .ok y => .ok y
      | .error _ => .error (.indexOutOfRange (i + 1) (xs.length + 1)) := by
  unfold index
  simp only [List.get?_cons_succ, List.length_cons]
  cases xs.get? i <;> rfl

theorem index_of_lt {α : Type} (xs : List α) (i : Nat) (h : i < xs.length) :
    index xs i = .ok (xs.get ⟨i, h⟩) := by
  unfold index
  rw [List.get?_eq_get h]

theorem fieldsFrom_ne_nil (s : List Char) :
    ∀ cur : List Char, ∀ f ∈ fieldsFrom cur s, f ≠ [] := by
  induction s with
  | nil =>
    intro cur f hf
    unfold fieldsFrom at hf
    cases cur with
    | nil => simp at hf
    | cons a t => simp at hf; simp [hf]
  | cons c cs ih =>
    intro cur f hf
    unfold fieldsFrom at hf
    by_cases hc : isSpace c = true
    · cases cur with
      | nil => simp [hc] at hf; exact ih [] f hf
      | cons a t =>
        simp [hc] at hf
        rcases hf with hf | hf
        · simp [hf]
        · exact ih [] f hf
    · simp [hc] at hf
      exact ih _ f hf

theorem Fields_ne_nil (s : List Char) : ∀ f ∈ Fields s, f ≠ [] := fieldsFrom_ne_nil s []

theorem fieldsFrom_append_space (a : Char) (ha : isSpace a = true) (s : List Char) :
    ∀ cur : List Char, fieldsFrom cur (s ++ [a]) = fieldsFrom cur s := by
  induction s with
  | nil =>
    intro cur
    cases cur <;> simp [fieldsFrom, ha]
  | cons c cs ih =>
    intro cur
    simp only [List.cons_append, fieldsFrom, List.append_eq, ih]

theorem Fields_cons_space (a : Char) (ha : isSpace a = true) (s : List Char) :
    Fields (a :: s) = Fields s := by
  simp [Fields, fieldsFrom, ha]

theorem Fields_dropWhile (s : List Char) : Fields (s.dropWhile isSpace) = Fields s := by
  induction s with
  | nil => rfl
  | cons c cs ih =>
    by_cases hc : isSpace c = true
    · rw [List.dropWhile_cons_of_pos hc, ih, Fields_cons_space c hc]
    · rw [List.dropWhile_cons_of_neg hc]

theorem Fields_rdropWhile (s : List Char) : Fields (s.rdropWhile isSpace) = Fields s := by
  induction s using List.reverseRecOn with
  | nil => rfl
  | append_singleton l a ih =>
    by_cases ha : isSpace a = true
    · rw [List.rdropWhile_concat_pos _ _ _ ha, ih]
      unfold Fields
      rw [fieldsFrom_append_space a ha]
    · rw [List.rdropWhile_concat_neg _ _ _ ha]

theorem Fields_TrimSpace (s : List Char) : Fields (TrimSpace s) = Fields s := by
  unfold TrimSpace
  rw [Fields_rdropWhile, Fields_dropWhile]

theorem TrimSpace_eq_nil_iff (s : List Char) : TrimSpace s = [] ↔ ∀ c ∈ s, isSpace c = true := by
  unfold TrimSpace
  rw [List.rdropWhile_eq_nil_iff]
  constructor
  · intro h c hc
    by_contra hn
    have hmem : ∀ x ∈ s.dropWhile isSpace, isSpace x = true := h
    have hne : s.dropWhile isSpace ≠ [] := by
      intro he
      rw [List.dropWhile_eq_nil_iff] at he
      exact hn (he c hc)
    have hhead := List.head_dropWhile_not isSpace s hne
    have := hmem _ (List.head_mem hne)
    simp [this] at hhead
  · intro h x hx
    exact h x ((List.dropWhile_sublist isSpace).subset hx)

theorem fieldsFrom_cons_cur (s : List Char) :
    ∀ (a : Char) (cur : List Char), fieldsFrom (a :: cur) s ≠ [] := by
  induction s with
  | nil => intro a cur; simp [fieldsFrom]
  | cons c cs ih =>
    intro a cur
    unfold fieldsFrom
    by_cases hc : isSpace c = true
    · simp [hc]
    · simp only [hc]
      exact ih a _

theorem Fields_eq_nil_iff (s : List Char) : Fields s = [] ↔ ∀ c ∈ s, isSpace c = true := by
  induction s with
  | nil => simp [Fields, fieldsFrom]
  | cons c cs ih =>
    by_cases hc : isSpace c = true
    · rw [Fields_cons_space c hc, ih]
      simp [hc]
    · constructor
      · intro h
        exfalso
        unfold Fields fieldsFrom at h
        simp only [hc] at h
        exact fieldsFrom_cons_cur cs c [] h
      · intro h
        exact absurd (h c (List.mem_cons_self _ _)) hc

/-! ## The device listings -/

theorem DeviceSerialList_loop_eq (lines : List (List Char)) :
    ∀ serials : List (List Char),
      DeviceSerialList.loop serials lines =
        .ok (serials ++ lines.filterMap
          (fun line => if 2 ≤ (Fields line).length then (Fields line).head? else none)) := by
  induction lines with
  | nil => intro serials; simp [DeviceSerialList.loop]
  | cons line rest ih =>
    intro serials
    unfold DeviceSerialList.loop
    by_cases hlen : (Fields line).length < 2
    · have h2 : ¬ 2 ≤ (Fields line).length := by omega
      simp only [hlen, if_true, ih, List.filterMap_cons, h2, if_false]
    · have h2 : 2 ≤ (Fields line).length := by omega
      cases hf : Fields line with
      | nil => rw [hf] at h2; simp at h2
      | cons f0 fs =>
        rw [hf] at hlen h2
        simp only [hlen, if_false, index_cons_zero, ih, List.filterMap_cons, hf, h2, if_true,
          List.head?_cons, List.append_assoc, List.singleton_append]

/-- C1: on every payload returned for `host:devices`, `DeviceSerialList`
succeeds (no panic, nil error) and returns, in payload order, the first field
of each line (payload split on "\n") that has at least 2 white-space separated
fields; when no line has 2 fields, and in particular on the empty payload, the
result is the empty sequence. -/
theorem DeviceSerialList_spec (newTransport : NewTransport) (c : Client) (payload : List Char)
    (h : (executeCommand newTransport c "host:devices".toList []).result = (payload, none)) :
    (DeviceSerialList newTransport c).result =
        .ok ((Split payload "\n".toList).filterMap
          (fun line => if 2 ≤ (Fields line).length then (Fields line).head? else none), none)
    ∧ ((∀ line ∈ Split payload "\n".toList, (Fields line).length < 2) →
        (DeviceSerialList newTransport c).result = .ok ([], none))
    ∧ (payload = [] → (DeviceSerialList newTransport c).result = .ok ([], none)) := by
  have main : (DeviceSerialList newTransport c).result =
      .ok ((Split payload "\n".toList).filterMap
        (fun line => if 2 ≤ (Fields line).length then (Fields line).head? else none), none) := by
    unfold DeviceSerialList
    simp only [h, DeviceSerialList_loop_eq, List.nil_append]
  refine ⟨main, ?_, ?_⟩
  · intro hshort
    rw [main]
    have : (Split payload "\n".toList).filterMap
        (fun line => if 2 ≤ (Fields line).length then (Fields line).head? else none) = [] := by
      rw [List.filterMap_eq_nil_iff]
      intro line hline
      have := hshort line hline
      have h2 : ¬ 2 ≤ (Fields line).length := by omega
      simp only [h2, if_false]
    rw [this]
  · intro hp
    rw [main, hp]
    rfl

/-- The witness of the specification: the response
"emulator-5554\tdevice\nZX1G22JJ7P\tdevice\n" gives the two serials. -/
theorem DeviceSerialList_spec_witness :
    (DeviceSerialList (okServer "emulator-5554\tdevice\nZX1G22JJ7P\tdevice\n".toList)
        ⟨"localhost".toList, 5037⟩).result =
      .ok (["emulator-5554".toList, "ZX1G22JJ7P".toList], none) :=
  (DeviceSerialList_spec (okServer "emulator-5554\tdevice\nZX1G22JJ7P\tdevice\n".toList)
    ⟨"localhost".toList, 5037⟩ "emulator-5554\tdevice\nZX1G22JJ7P\tdevice\n".toList
    (by decide)).1.trans (by decide)

/-- C2: `DeviceList` does not return on every payload. On a `host:devices-l`
line with 5 fields whose third field has no colon, the index expression
`split[1]` panics (index 1 out of range with length 1) and aborts the call. -/
theorem DeviceList_panics_on_token_without_colon :
    (DeviceList (okServer "0123456789ABCDEF no permissions usb:1-1 transport_id:1\n".toList)
        ⟨"localhost".toList, 5037⟩).result = .error (.indexOutOfRange 1 1) := by
  decide

/-- C3: the value stored for a token is the text between its first and its
second colon, not all the text after the first colon: on the token `k:a:b` the
attribute `k` is `a`. -/
theorem DeviceList_value_stops_at_second_colon :
    (DeviceList (okServer "emulator-5554 device k:a:b product:sdk model:x\n".toList)
        ⟨"localhost".toList, 5037⟩).result =
      .ok ([⟨⟨"localhost".toList, 5037⟩, "emulator-5554".toList,
        [("k".toList, "a".toList), ("product".toList, "sdk".toList),
         ("model".toList, "x".toList)]⟩], none)
    ∧ mapGet [("k".toList, "a".toList), ("product".toList, "sdk".toList),
         ("model".toList, "x".toList)] "k".toList = some "a".toList
    ∧ "a".toList ≠ "a:b".toList := by
  decide

theorem splitFrom_single_cons (c x : Char) (xs : List Char) :
    splitFrom [c] 0 (x :: xs) =
      if c = x then [] :: splitFrom [c] 0 xs else consHead x (splitFrom [c] 0 xs) := by
  simp [splitFrom, List.isPrefixOf]

theorem length_consHead (x : Char) (l : List (List Char)) (h : l ≠ []) :
    (consHead x l).length = l.length := by
  cases l with
  | nil => exact absurd rfl h
  | cons a t => rfl

theorem length_splitFrom_single (c : Char) (s : List Char) :
    (splitFrom [c] 0 s).length = s.count c + 1 := by
  induction s with
  | nil => simp [splitFrom]
  | cons x xs ih =>
    rw [splitFrom_single_cons]
    by_cases hx : c = x
    · subst hx
      simp [ih]
    · have hne : splitFrom [c] 0 xs ≠ [] := by
        intro he
        rw [he] at ih
        simp at ih
      rw [if_neg hx, length_consHead _ _ hne, ih, List.count_cons_of_ne hx]

theorem two_le_length_Split_colon (f : List Char) (h : ':' ∈ f) :
    2 ≤ (Split f ":".toList).length := by
  have : Split f ":".toList = splitFrom [':'] 0 f := rfl
  rw [this, length_splitFrom_single]
  have := List.count_pos_iff.mpr h
  omega

theorem DeviceList_attrsLoop_ok (toks : List (List Char)) :
    ∀ m : GoMap, (∀ f ∈ toks, ':' ∈ f) → ∃ m1, DeviceList.attrsLoop m toks = .ok m1 := by
  induction toks with
  | nil => intro m _; exact ⟨m, rfl⟩
  | cons f rest ih =>
    intro m h
    have hlen := two_le_length_Split_colon f (h f (List.mem_cons_self _ _))
    unfold DeviceList.attrsLoop
    simp only [index_of_lt (Split f ":".toList) 0 (by omega),
      index_of_lt (Split f ":".toList) 1 (by omega)]
    exact ih _ (fun g hg => h g (List.mem_cons_of_mem _ hg))

theorem DeviceList_loop_spec (c : Client) (lines : List (List Char)) :
    (∀ line ∈ lines, 5 ≤ (Fields line).length → ∀ f ∈ (Fields line).drop 2, ':' ∈ f) →
    ∀ devices : List Device, ∃ ds : List Device,
      DeviceList.loop c devices lines = .ok (devices ++ ds)
      ∧ ds.map Device.serial =
          (lines.filter (fun line => decide (5 ≤ (Fields line).length))).map
            (fun line => (Fields line).headD [])
      ∧ ∀ d ∈ ds, d.adbClient = c := by
  induction lines with
  | nil =>
    intro _ devices
    exact ⟨[], by simp [DeviceList.loop], by simp, by simp⟩
  | cons line0 rest ih =>
    intro H devices
    have Hrest : ∀ line ∈ rest, 5 ≤ (Fields line).length →
        ∀ f ∈ (Fields line).drop 2, ':' ∈ f :=
      fun line hl => H line (List.mem_cons_of_mem _ hl)
    unfold DeviceList.loop
    by_cases hblank : TrimSpace line0 = []
    · have hF : Fields line0 = [] :=
        (Fields_eq_nil_iff line0).mpr ((TrimSpace_eq_nil_iff line0).mp hblank)
      obtain ⟨ds, h1, h2, h3⟩ := ih Hrest devices
      refine ⟨ds, ?_, ?_, h3⟩
      · simp only [hblank, if_true, h1]
      · rw [h2]
        simp [List.filter_cons, hF]
    · simp only [hblank, if_false, Fields_TrimSpace]
      by_cases hlen : (Fields line0).length < 5
      · obtain ⟨ds, h1, h2, h3⟩ := ih Hrest devices
        refine ⟨ds, ?_, ?_, h3⟩
        · simp only [hlen, if_true, h1]
        · rw [h2]
          have : ¬ 5 ≤ (Fields line0).length := by omega
          simp [List.filter_cons, this]
      · have h5 : 5 ≤ (Fields line0).length := by omega
        have hcolon := H line0 (List.mem_cons_self _ _) h5
        cases hf : Fields line0 with
        | nil => rw [hf] at h5; simp at h5
        | cons f0 fs =>
          have hf0 : f0 ≠ [] := Fields_ne_nil line0 f0 (by rw [hf]; exact List.mem_cons_self _ _)
          have hf0len : ¬ f0.length = 0 := by
            intro h0
            exact hf0 (List.length_eq_zero.mp h0)
          rw [hf] at hlen h5 hcolon
          have hslice : sliceFrom (f0 :: fs) 2 = .ok ((f0 :: fs).drop 2) := by
            unfold sliceFrom
            rw [if_pos (by omega)]
          obtain ⟨m1, hm1⟩ := DeviceList_attrsLoop_ok ((f0 :: fs).drop 2) [] hcolon
          obtain ⟨ds, h1, h2, h3⟩ := ih Hrest (devices ++ [⟨c, f0, m1⟩])
          refine ⟨⟨c, f0, m1⟩ :: ds, ?_, ?_, ?_⟩
          · simp only [hlen, if_false, index_cons_zero, hf0len, hslice, hm1, h1,
              List.append_assoc, List.singleton_append]
          · have : 5 ≤ (Fields line0).length := by rw [hf]; exact h5
            rw [List.filter_cons_of_pos (by simpa using this), List.map_cons, List.map_cons, h2,
              hf]
            rfl
          · intro d hd
            rcases List.mem_cons.mp hd with hd | hd
            · rw [hd]
            · exact h3 d hd

/-- C4: on every payload whose lines with at least 5 fields have a colon in
every field from the third onward, `DeviceList` succeeds (no panic, nil error)
and returns, in payload order, one `Device` per line with at least 5 fields,
its serial being the first field of the line; the lines with fewer than 5
fields, blank ones included, give nothing. -/
theorem DeviceList_spec (newTransport : NewTransport) (c : Client) (payload : List Char)
    (h : (executeCommand newTransport c "host:devices-l".toList []).result = (payload, none))
    (hcolon : ∀ line ∈ Split payload "\n".toList, 5 ≤ (Fields line).length →
      ∀ f ∈ (Fields line).drop 2, ':' ∈ f) :
    ∃ devices : List Device,
      (DeviceList newTransport c).result = .ok (devices, none)
      ∧ devices.map Device.serial =
          ((Split payload "\n".toList).filter (fun line => decide (5 ≤ (Fields line).length))).map
            (fun line => (Fields line).headD [])
      ∧ ∀ d ∈ devices, d.adbClient = c := by
  obtain ⟨ds, h1, h2, h3⟩ := DeviceList_loop_spec c (Split payload "\n".toList) hcolon []
  refine ⟨ds, ?_, h2, h3⟩
  unfold DeviceList
  simp only [h, h1, List.nil_append]

/-- The witness of the device listing: a well-formed line, a blank line and a
line of 2 fields give the one device of the well-formed line. -/
theorem DeviceList_spec_witness :
    ∃ devices : List Device,
      (DeviceList (okServer
          "emulator-5554 device product:sdk model:sdk device:generic\n\nshort line\n".toList)
        ⟨"localhost".toList, 5037⟩).result = .ok (devices, none)
      ∧ devices.map Device.serial = ["emulator-5554".toList] :=
  (DeviceList_spec (okServer
      "emulator-5554 device product:sdk model:sdk device:generic\n\nshort line\n".toList)
    ⟨"localhost".toList, 5037⟩
    "emulator-5554 device product:sdk model:sdk device:generic\n\nshort line\n".toList
    (by decide) (by decide)).imp (fun _ hd => ⟨hd.1, hd.2.1.trans (by decide)⟩)

/-! ## The forward listing -/

theorem ForwardList_loop_spec (lines : List (List Char)) :
    (∀ line ∈ lines, isBlank line = false → 3 ≤ (Fields line).length) →
    ∀ deviceForward : List DeviceForward,
      ForwardList.loop deviceForward lines =
        .ok (deviceForward ++
          (lines.filter (fun line => !isBlank line)).map forwardOfLine) := by
  induction lines with
  | nil => intro _ acc; simp [ForwardList.loop]
  | cons line0 rest ih =>
    intro H acc
    have Hrest : ∀ line ∈ rest, isBlank line = false → 3 ≤ (Fields line).length :=
      fun line hl => H line (List.mem_cons_of_mem _ hl)
    unfold ForwardList.loop
    by_cases hblank : TrimSpace line0 = []
    · have hb : isBlank line0 = true := by
        unfold isBlank
        rw [List.all_eq_true]
        exact (TrimSpace_eq_nil_iff line0).mp hblank
      simp only [hblank, if_true, ih Hrest]
      simp [List.filter_cons, hb]
    · have hb : isBlank line0 = false := by
        cases hbb : isBlank line0 with
        | false => rfl
        | true =>
          exfalso
          unfold isBlank at hbb
          rw [List.all_eq_true] at hbb
          exact hblank ((TrimSpace_eq_nil_iff line0).mpr hbb)
      have h3 := H line0 (List.mem_cons_self _ _) hb
      simp only [hblank, if_false, Fields_TrimSpace]
      have e : forwardOfLine line0 =
          ⟨(Fields line0).getD 0 [], (Fields line0).getD 1 [], (Fields line0).getD 2 []⟩ := rfl
      match hf : Fields line0, h3 with
      | f0 :: f1 :: f2 :: fs, _ =>
        rw [hf] at e
        simp only [index_cons_zero, index_cons_succ, ih Hrest]
        simp [List.filter_cons, hb, e]

/-- C5: on every payload returned for `host:list-forward` whose non-blank
lines each have at least 3 white-space separated fields, `ForwardList` succeeds
(no panic, nil error) and returns, in payload order, one `DeviceForward` per
non-blank line, made of the first, second and third field of that line; blank
lines give nothing. -/
theorem ForwardList_spec (newTransport : NewTransport) (c : Client) (payload : List Char)
    (h : (executeCommand newTransport c "host:list-forward".toList []).result = (payload, none))
    (hfields : ∀ line ∈ Split payload "\n".toList, isBlank line = false →
      3 ≤ (Fields line).length) :
    (ForwardList newTransport c).result =
        .ok (((Split payload "\n".toList).filter (fun line => !isBlank line)).map forwardOfLine,
          none)
    ∧ ∀ line ∈ (Split payload "\n".toList).filter (fun line => !isBlank line),
        ∃ rest, Fields line =
          (forwardOfLine line).Serial :: (forwardOfLine line).Local ::
            (forwardOfLine line).Remote :: rest := by
  constructor
  · unfold ForwardList
    simp only [h, ForwardList_loop_spec _ hfields, List.nil_append]
  · intro line hline
    rw [List.mem_filter] at hline
    have hb : isBlank line = false := by simpa using hline.2
    have h3 := hfields line hline.1 hb
    unfold forwardOfLine
    match hf : Fields line, h3 with
    | f0 :: f1 :: f2 :: fs, _ => exact ⟨fs, by simp⟩

/-- The witness of the forward listing: "emulator-5554 tcp:5000 tcp:6000\n"
gives the one rule emulator-5554, tcp:5000, tcp:6000. -/
theorem ForwardList_spec_witness :
    (ForwardList (okServer "emulator-5554 tcp:5000 tcp:6000\n".toList)
        ⟨"localhost".toList, 5037⟩).result =
      .ok ([⟨"emulator-5554".toList, "tcp:5000".toList, "tcp:6000".toList⟩], none) :=
  (ForwardList_spec (okServer "emulator-5554 tcp:5000 tcp:6000\n".toList)
    ⟨"localhost".toList, 5037⟩ "emulator-5554 tcp:5000 tcp:6000\n".toList
    (by decide) (by decide)).1.trans (by decide)

/-- C6: `ForwardList` does not return on every payload. On a non-blank line
with 2 fields the index expression `fields[2]` panics (index 2 out of range
with length 2) and aborts the call. -/
theorem ForwardList_panics_on_short_line :
    (ForwardList (okServer "emulator-5554 tcp:5000\n".toList)
        ⟨"localhost".toList, 5037⟩).result = .error (.indexOutOfRange 2 2) := by
  decide

/-! ## The server version -/

theorem digitOf_of_hexRange :
    ∀ n, n < 128 → hexRange n = true → digitOf n = some (hexVal n) ∧ hexVal n < 16 := by
  decide

theorem digitOf_of_not_hexRange :
    ∀ n, n < 128 → hexRange n = false → ∀ d, digitOf n = some d → 16 ≤ d := by
  decide

theorem toNat_lt_of_isHexDigit (c : Char) (h : isHexDigit c = true) : c.toNat < 128 := by
  unfold isHexDigit hexRange at h
  simp only [Bool.or_eq_true, Bool.and_eq_true, decide_eq_true_eq] at h
  omega

theorem parseUintLoop_hex (s : List Char) :
    ∀ (k n : Nat), (∀ c ∈ s, isHexDigit c = true) → n < 16 ^ k → k + s.length ≤ 15 →
      parseUintLoop 16 (2 ^ 64 - 1) (2 ^ 60) n s =
          (s.foldl (fun acc c => 16 * acc + hexVal c.toNat) n, none)
      ∧ s.foldl (fun acc c => 16 * acc + hexVal c.toNat) n < 16 ^ (k + s.length) := by
  induction s with
  | nil => intro k n _ hn _; exact ⟨rfl, by simpa using hn⟩
  | cons c cs ih =>
    intro k n hhex hn hk
    have hc := hhex c (List.mem_cons_self _ _)
    have h128 : ¬ 128 ≤ c.toNat := by have := toNat_lt_of_isHexDigit c hc; omega
    obtain ⟨hd, hlt⟩ := digitOf_of_hexRange c.toNat (by omega) hc
    simp only [List.length_cons] at hk
    have hk14 : k ≤ 14 := by omega
    have hpow : 16 ^ k ≤ 16 ^ 14 := Nat.pow_le_pow_right (by norm_num) hk14
    have hsucc : 16 ^ (k + 1) = 16 ^ k * 16 := pow_succ 16 k
    have e14 : (16 : Nat) ^ 14 = 72057594037927936 := by norm_num
    have e60 : (2 : Nat) ^ 60 = 1152921504606846976 := by norm_num
    have e64 : (2 : Nat) ^ 64 = 18446744073709551616 := by norm_num
    have hcut : ¬ 2 ^ 60 ≤ n := by omega
    have hn0 : n * 16 % 2 ^ 64 = n * 16 := Nat.mod_eq_of_lt (by omega)
    have hn1 : (n * 16 + hexVal c.toNat) % 2 ^ 64 = 16 * n + hexVal c.toNat := by
      rw [Nat.mod_eq_of_lt (by omega)]
      omega
    have hstep : 16 * n + hexVal c.toNat < 16 ^ (k + 1) := by omega
    have hno : ¬ (16 * n + hexVal c.toNat < n * 16 ∨ 2 ^ 64 - 1 < 16 * n + hexVal c.toNat) := by
      omega
    have hrec := ih (k + 1) (16 * n + hexVal c.toNat)
      (fun x hx => hhex x (List.mem_cons_of_mem _ hx)) hstep (by omega)
    unfold parseUintLoop
    have hnot16 : ¬ 16 ≤ hexVal c.toNat := by omega
    simp only [h128, if_false, hd, hnot16, hcut, hn0, hn1, hno, List.foldl_cons]
    refine ⟨hrec.1, ?_⟩
    have : k + (cs.length + 1) = k + 1 + cs.length := by omega
    simp only [List.length_cons, this]
    exact hrec.2

theorem parseUintLoop_bad (maxVal cutoff : Nat) (s : List Char) :
    ∀ n : Nat, (∃ c ∈ s, isHexDigit c = false) →
      parseUintLoop 16 maxVal cutoff n s = (0, some .ErrSyntax)
      ∨ parseUintLoop 16 maxVal cutoff n s = (maxVal, some .ErrRange) := by
  induction s with
  | nil => intro n h; obtain ⟨c, hc, _⟩ := h; simp at hc
  | cons c cs ih =>
    intro n h
    unfold parseUintLoop
    by_cases h128 : 128 ≤ c.toNat
    · left; simp only [h128, if_true]
    · simp only [h128, if_false]
      cases hd : digitOf c.toNat with
      | none => left; rfl
      | some d =>
        simp only
        by_cases hbase : 16 ≤ d
        · left; simp only [hbase, if_true]
        · simp only [hbase, if_false]
          by_cases hcut : cutoff ≤ n
          · right; simp only [hcut, if_true]
          · simp only [hcut, if_false]
            by_cases hov : (n * 16 % 2 ^ 64 + d) % 2 ^ 64 < n * 16 % 2 ^ 64 ∨
                maxVal < (n * 16 % 2 ^ 64 + d) % 2 ^ 64
            · right; simp only [hov, if_true]
            · simp only [hov, if_false]
              apply ih
              obtain ⟨x, hx, hxbad⟩ := h
              rcases List.mem_cons.mp hx with hxc | hxcs
              · exfalso
                subst hxc
                exact hbase (digitOf_of_not_hexRange x.toNat (by omega) hxbad d hd)
              · exact ⟨x, hxcs, hxbad⟩

theorem ParseUint_of_not_isValidHex (s : List Char) (h : isValidHex s = false) :
    ParseUint s 16 64 = (0, some .ErrSyntax)
    ∨ ParseUint s 16 64 = (2 ^ 64 - 1, some .ErrRange) := by
  unfold ParseUint
  cases s with
  | nil => left; rfl
  | cons c cs =>
    have hbad : ∃ x ∈ c :: cs, isHexDigit x = false := by
      unfold isValidHex at h
      simp only [List.isEmpty_cons, Bool.not_false, Bool.true_and] at h
      by_contra hcon
      push_neg at hcon
      have : (c :: cs).all isHexDigit = true := by
        rw [List.all_eq_true]
        intro x hx
        simpa using hcon x hx
      rw [this] at h
      exact Bool.noConfusion h
    simp only [List.isEmpty_cons, Bool.false_eq_true, if_false]
    exact parseUintLoop_bad _ _ _ 0 hbad

theorem ParseInt_hex (s : List Char) (hne : s ≠ []) (hhex : ∀ c ∈ s, isHexDigit c = true)
    (hlen : s.length ≤ 15) : ParseInt s 16 64 = (((hexValue s : Nat) : Int), none) := by
  cases s with
  | nil => exact absurd rfl hne
  | cons c0 rest =>
    have hc0 := hhex c0 (List.mem_cons_self _ _)
    have hplus : (c0 == '+') = false := by
      rw [beq_eq_false_iff_ne]
      intro e
      rw [e] at hc0
      exact absurd hc0 (by decide)
    have hminus : (c0 == '-') = false := by
      rw [beq_eq_false_iff_ne]
      intro e
      rw [e] at hc0
      exact absurd hc0 (by decide)
    obtain ⟨hloop, hbound⟩ := parseUintLoop_hex (c0 :: rest) 0 0 hhex (by norm_num) (by omega)
    have hU : ParseUint (c0 :: rest) 16 64 = (hexValue (c0 :: rest), none) := by
      unfold ParseUint
      simp only [List.isEmpty_cons, Bool.false_eq_true, if_false]
      exact hloop
    have hlt : hexValue (c0 :: rest) < 2 ^ 60 := by
      have h1 : 16 ^ (0 + (c0 :: rest).length) ≤ 16 ^ 15 :=
        Nat.pow_le_pow_right (by norm_num) (by omega)
      have h2 : (16 : Nat) ^ 15 = 2 ^ 60 := by norm_num
      unfold hexValue
      omega
    have e60 : (2 : Nat) ^ 60 = 1152921504606846976 := by norm_num
    have e63 : (2 : Nat) ^ (64 - 1) = 9223372036854775808 := by norm_num
    have hcut : ¬ 2 ^ (64 - 1) ≤ hexValue (c0 :: rest) := by omega
    have hto : toInt64 (hexValue (c0 :: rest) : Nat) = ((hexValue (c0 :: rest) : Nat) : Int) := by
      unfold toInt64
      norm_num
      omega
    unfold ParseInt
    simp only [hplus, hminus, Bool.or_self, Bool.false_eq_true, if_false, hU, Bool.not_false,
      Bool.true_and, decide_eq_true_eq, hcut, Bool.false_and, hto]

theorem hexValue_lt (s : List Char) (hhex : ∀ c ∈ s, isHexDigit c = true)
    (hlen : s.length ≤ 15) : hexValue s < 16 ^ s.length := by
  have hb := (parseUintLoop_hex s 0 0 hhex (by norm_num) (by omega)).2
  rw [Nat.zero_add] at hb
  exact hb

/-- C7, as the claim states it, fails on a build whose `int` has 32 bits: the
payload "ffffffff" is a string of 8 hexadecimal digits denoting 4294967295, and
`ServerVersion` returns -1 with a nil error, `int(v)` keeping the low 32 bits. -/
theorem ServerVersion_wraps_on_32_bit_int :
    "ffffffff".toList ≠ []
    ∧ (∀ ch ∈ "ffffffff".toList, isHexDigit ch = true)
    ∧ "ffffffff".toList.length ≤ 15
    ∧ hexValue "ffffffff".toList = 4294967295
    ∧ (ServerVersion .bits32 (okServer "ffffffff".toList) ⟨"localhost".toList, 5037⟩).result
        = (-1, none) := by
  decide

/-- C7, amended: on every payload returned for `host:version` that is a
non-empty string of at most 15 hexadecimal digits (upper or lower case),
`ServerVersion` succeeds and returns the integer those digits denote in base
16, converted to `int`. The result is that non-negative integer itself on a
build whose `int` has 64 bits and, on a build whose `int` has 32 bits, whenever
it is below 2^31: in particular for every payload of at most 7 digits, so for
every 4-digit payload, on either build. -/
theorem ServerVersion_hex (intSize : IntSize) (newTransport : NewTransport) (c : Client)
    (payload : List Char)
    (h : (executeCommand newTransport c "host:version".toList []).result = (payload, none))
    (hne : payload ≠ []) (hhex : ∀ ch ∈ payload, isHexDigit ch = true)
    (hlen : payload.length ≤ 15) :
    (ServerVersion intSize newTransport c).result =
        (toInt intSize ((hexValue payload : Nat) : Int), none)
    ∧ (intSize = .bits64 ∨ hexValue payload < 2 ^ 31 ∨ payload.length ≤ 7 →
        (ServerVersion intSize newTransport c).result = (((hexValue payload : Nat) : Int), none)
        ∧ (0 : Int) ≤ ((hexValue payload : Nat) : Int)) := by
  have hmain : (ServerVersion intSize newTransport c).result =
      (toInt intSize ((hexValue payload : Nat) : Int), none) := by
    unfold ServerVersion
    simp only [h, ParseInt_hex payload hne hhex hlen]
  refine ⟨hmain, ?_⟩
  intro hfit
  refine ⟨?_, Int.natCast_nonneg _⟩
  rw [hmain]
  have hb := hexValue_lt payload hhex hlen
  have hlt60 : hexValue payload < 2 ^ 60 := by
    have h1 : 16 ^ payload.length ≤ 16 ^ 15 := Nat.pow_le_pow_right (by norm_num) hlen
    have h2 : (16 : Nat) ^ 15 = 2 ^ 60 := by norm_num
    omega
  have e60 : (2 : Nat) ^ 60 = 1152921504606846976 := by norm_num
  have e31 : (2 : Nat) ^ 31 = 2147483648 := by norm_num
  have hto : toInt intSize ((hexValue payload : Nat) : Int) = ((hexValue payload : Nat) : Int) := by
    cases intSize with
    | bits64 =>
      unfold toInt IntSize.bits
      norm_num
      omega
    | bits32 =>
      have hlt31 : hexValue payload < 2 ^ 31 := by
        rcases hfit with hw | hv | hl
        · cases hw
        · exact hv
        · have h1 : 16 ^ payload.length ≤ 16 ^ 7 := Nat.pow_le_pow_right (by norm_num) hl
          have h2 : (16 : Nat) ^ 7 = 268435456 := by norm_num
          omega
      unfold toInt IntSize.bits
      norm_num
      omega
  rw [hto]

/-- The witness of the version parse: the payload "001f" gives 31, whether
`int` has 32 or 64 bits. -/
theorem ServerVersion_hex_witness :
    (ServerVersion .bits32 (okServer "001f".toList) ⟨"localhost".toList, 5037⟩).result
      = (31, none)
    ∧ (ServerVersion .bits64 (okServer "001f".toList) ⟨"localhost".toList, 5037⟩).result
      = (31, none) :=
  ⟨((ServerVersion_hex .bits32 (okServer "001f".toList) ⟨"localhost".toList, 5037⟩
      "001f".toList (by decide) (by decide) (by decide) (by decide)).2
      (Or.inr (Or.inr (by decide)))).1.trans (by decide),
   ((ServerVersion_hex .bits64 (okServer "001f".toList) ⟨"localhost".toList, 5037⟩
      "001f".toList (by decide) (by decide) (by decide) (by decide)).2
      (Or.inl rfl)).1.trans (by decide)⟩

/-- C8, as the claim states it, fails: the payload "+1f" is not a string of
hexadecimal digits, yet `ServerVersion` succeeds on it and returns 31 (and on
"-1f" it returns -31), because `strconv.ParseInt` accepts a sign; so it is
whether `int` has 32 or 64 bits. -/
theorem ServerVersion_accepts_signed_payload :
    isValidHex "+1f".toList = false
    ∧ (ServerVersion .bits64 (okServer "+1f".toList) ⟨"localhost".toList, 5037⟩).result
        = (31, none)
    ∧ (ServerVersion .bits32 (okServer "+1f".toList) ⟨"localhost".toList, 5037⟩).result
        = (31, none)
    ∧ isValidHex "-1f".toList = false
    ∧ (ServerVersion .bits64 (okServer "-1f".toList) ⟨"localhost".toList, 5037⟩).result
        = (-31, none)
    ∧ (ServerVersion .bits32 (okServer "-1f".toList) ⟨"localhost".toList, 5037⟩).result
        = (-31, none) := by
  decide

/-- C8, amended: on every payload returned for `host:version` that is not a
non-empty string of hexadecimal digits after an optional leading sign `+` or
`-`, `ServerVersion` fails with the `strconv.ParseInt` error for that payload
and returns version 0. -/
theorem ServerVersion_rejects_non_hex (intSize : IntSize) (newTransport : NewTransport)
    (c : Client) (payload : List Char)
    (h : (executeCommand newTransport c "host:version".toList []).result = (payload, none))
    (hbad : isSignedHex payload = false) :
    ∃ kind, (ServerVersion intSize newTransport c).result =
      (0, some (.numError "ParseInt".toList payload kind)) := by
  have hP : ∃ kind, (ParseInt payload 16 64).2 =
      some (.numError "ParseInt".toList payload kind) := by
    cases payload with
    | nil => exact ⟨.ErrSyntax, rfl⟩
    | cons c0 rest =>
      have hbad2 : (if (c0 == '+' || c0 == '-') = true then isValidHex rest
          else isValidHex (c0 :: rest)) = false := hbad
      have hs1 : isValidHex (if (c0 == '+' || c0 == '-') = true then rest else c0 :: rest)
          = false := by
        by_cases hsign : (c0 == '+' || c0 == '-') = true
        · rw [if_pos hsign] at hbad2 ⊢
          exact hbad2
        · rw [if_neg hsign] at hbad2 ⊢
          exact hbad2
      unfold ParseInt
      rcases ParseUint_of_not_isValidHex _ hs1 with hU | hU
      · simp only [hU]
        exact ⟨_, rfl⟩
      · simp only [hU]
        refine ⟨.ErrRange, ?_⟩
        cases hneg : (c0 == '-') <;> simp
  obtain ⟨kind, hk⟩ := hP
  refine ⟨kind, ?_⟩
  have hv : ParseInt payload 16 64 =
      ((ParseInt payload 16 64).1, some (.numError "ParseInt".toList payload kind)) :=
    Prod.ext rfl hk
  unfold ServerVersion
  simp only [h]
  rw [hv]

/-- The witness of the amended C8: the payload "1g" is rejected with version 0. -/
theorem ServerVersion_rejects_non_hex_witness :
    ∃ kind, (ServerVersion .bits64 (okServer "1g".toList) ⟨"localhost".toList, 5037⟩).result =
      (0, some (.numError "ParseInt".toList "1g".toList kind)) :=
  ServerVersion_rejects_non_hex .bits64 (okServer "1g".toList) ⟨"localhost".toList, 5037⟩
    "1g".toList (by decide) (by decide)

/-! ## Connect -/

theorem HasPrefix_iff (s pre : List Char) : HasPrefix s pre = true ↔ pre <+: s := by
  unfold HasPrefix
  simp only [Bool.and_eq_true, decide_eq_true_eq, beq_iff_eq]
  constructor
  · rintro ⟨_, htake⟩
    rw [← htake]
    exact List.take_prefix _ _
  · intro hp
    exact ⟨hp.length_le, (List.prefix_iff_eq_take.mp hp).symm⟩

theorem sentCommands_executeCommand (newTransport : NewTransport) (c : Client)
    (command : List Char) (onlyVerifyResponse : List Bool) :
    sentCommands (executeCommand newTransport c command onlyVerifyResponse).calls =
      if (newTransport (c.host ++ ":".toList ++ formatInt c.port)).2 = none then [command]
      else [] := by
  unfold executeCommand createTransport
  simp only
  rcases hnt : newTransport (c.host ++ ":".toList ++ formatInt c.port) with ⟨tp, _ | err⟩
  · simp only [if_true]
    generalize (if onlyVerifyResponse.length = 0 then [false]
      else onlyVerifyResponse).headD false = flag
    cases tp.Send command with
    | some e => rfl
    | none =>
      cases tp.VerifyResponse command with
      | some e => rfl
      | none =>
        cases flag with
        | true => rfl
        | false => rcases tp.UnpackString command with ⟨resp, _ | e⟩ <;> rfl
  · simp only [reduceCtorEq, if_false]
    rfl

theorem calls_Connect (newTransport : NewTransport) (c : Client) (ip : List Char)
    (port : List Int) :
    (Connect newTransport c ip port).calls =
      (executeCommand newTransport c ("host:connect:".toList ++ ip ++ ":".toList ++
        formatInt ((if port.length = 0 then [AdbDaemonPort] else port).headD 0)) []).calls := by
  unfold Connect
  simp only
  split
  · rfl
  · split <;> rfl

/-- C9: for every ip, port and payload `r` returned with an OKAY status,
`Connect` succeeds exactly when `r` starts with "connected to" or with
"already connected to"; for every other `r` it fails with the error
"adb connect: " followed by `r`, whose message contains `r`. -/
theorem Connect_spec (newTransport : NewTransport) (c : Client) (ip : List Char)
    (port : List Int) (r : List Char)
    (h : (executeCommand newTransport c ("host:connect:".toList ++ ip ++ ":".toList ++
        formatInt ((if port.length = 0 then [AdbDaemonPort] else port).headD 0)) []).result
          = (r, none)) :
    ((Connect newTransport c ip port).result = none ↔
        ("connected to".toList <+: r ∨ "already connected to".toList <+: r))
    ∧ (¬ ("connected to".toList <+: r ∨ "already connected to".toList <+: r) →
        (Connect newTransport c ip port).result =
            some (.errorString ("adb connect: ".toList ++ r))
        ∧ r <:+: ("adb connect: ".toList ++ r)) := by
  have key : (Connect newTransport c ip port).result =
      if "connected to".toList <+: r ∨ "already connected to".toList <+: r then none
      else some (.errorString ("adb connect: ".toList ++ r)) := by
    unfold Connect
    simp only [h]
    simp only [← HasPrefix_iff]
    generalize HasPrefix r "connected to".toList = b1
    generalize HasPrefix r "already connected to".toList = b2
    cases b1 <;> cases b2 <;> simp
  constructor
  · rw [key]
    by_cases hp : "connected to".toList <+: r ∨ "already connected to".toList <+: r
    · rw [if_pos hp]
      exact ⟨fun _ => hp, fun _ => rfl⟩
    · rw [if_neg hp]
      exact ⟨fun e => Option.noConfusion e, fun hq => absurd hq hp⟩
  · intro hp
    rw [key, if_neg hp]
    exact ⟨rfl, (List.suffix_append _ _).isInfix⟩

/-- The witness of C9: for `Connect("10.0.0.5")` the responses
"connected to 10.0.0.5:5555" and "already connected to 10.0.0.5:5555" are
successes, and "failed to connect to 10.0.0.5:5555" is an error. -/
theorem Connect_spec_witness :
    (Connect (okServer "connected to 10.0.0.5:5555".toList) ⟨"localhost".toList, 5037⟩
        "10.0.0.5".toList []).result = none
    ∧ (Connect (okServer "already connected to 10.0.0.5:5555".toList)
        ⟨"localhost".toList, 5037⟩ "10.0.0.5".toList []).result = none
    ∧ (Connect (okServer "failed to connect to 10.0.0.5:5555".toList)
        ⟨"localhost".toList, 5037⟩ "10.0.0.5".toList []).result =
          some (.errorString "adb connect: failed to connect to 10.0.0.5:5555".toList) :=
  ⟨(Connect_spec (okServer "connected to 10.0.0.5:5555".toList) ⟨"localhost".toList, 5037⟩
      "10.0.0.5".toList [] "connected to 10.0.0.5:5555".toList (by decide)).1.mpr
      (Or.inl (by decide)),
   (Connect_spec (okServer "already connected to 10.0.0.5:5555".toList)
      ⟨"localhost".toList, 5037⟩ "10.0.0.5".toList []
      "already connected to 10.0.0.5:5555".toList (by decide)).1.mpr (Or.inr (by decide)),
   ((Connect_spec (okServer "failed to connect to 10.0.0.5:5555".toList)
      ⟨"localhost".toList, 5037⟩ "10.0.0.5".toList []
      "failed to connect to 10.0.0.5:5555".toList (by decide)).2 (by decide)).1.trans
      (by decide)⟩

/-- C10: `Connect(ip)` without a port sends the one command
`host:connect:<ip>:5555`, and `Connect(ip, p)` sends the one command
`host:connect:<ip>:<p in decimal>`; no other command is sent (and none at all
when the connection to the server cannot be opened). -/
theorem Connect_sends (newTransport : NewTransport) (c : Client) (ip : List Char) :
    sentCommands (Connect newTransport c ip []).calls =
        (if (newTransport (c.host ++ ":".toList ++ formatInt c.port)).2 = none
          then ["host:connect:".toList ++ ip ++ ":5555".toList] else [])
    ∧ (∀ (p : Int) (more : List Int),
        sentCommands (Connect newTransport c ip (p :: more)).calls =
          (if (newTransport (c.host ++ ":".toList ++ formatInt c.port)).2 = none
            then ["host:connect:".toList ++ ip ++ ":".toList ++ formatInt p] else []))
    ∧ (∀ p : Int, formatInt p = (toString p).toList) := by
  refine ⟨?_, ?_, ?_⟩
  · rw [calls_Connect, sentCommands_executeCommand]
    have : formatInt ((if ([] : List Int).length = 0 then [AdbDaemonPort] else []).headD 0)
        = "5555".toList := by decide
    rw [this]
    simp
  · intro p more
    rw [calls_Connect, sentCommands_executeCommand]
    rfl
  · intro p
    cases p with
    | ofNat n => rfl
    | negSucc n => rfl

/-! ## Device tracking -/

theorem mapGet_cons_self (m : GoMap) (k v : List Char) : mapGet ((k, v) :: m) k = some v := by
  have hb : (k == k) = true := beq_self_eq_true k
  simp only [mapGet, List.lookup, hb]

theorem mapGet_cons_of_ne (m : GoMap) (k0 v0 key : List Char) (h : key ≠ k0) :
    mapGet ((k0, v0) :: m) key = mapGet m key := by
  have hb : (key == k0) = false := beq_false_of_ne h
  simp only [mapGet, List.lookup, hb]

theorem mapGet_mapSet (m : GoMap) (k v key : List Char) :
    mapGet (mapSet m k v) key = if key = k then some v else mapGet m key := by
  induction m with
  | nil =>
    unfold mapSet
    by_cases h : key = k
    · rw [if_pos h, h, mapGet_cons_self]
    · rw [if_neg h, mapGet_cons_of_ne _ _ _ _ h]
  | cons b m ih =>
    obtain ⟨k0, v0⟩ := b
    unfold mapSet
    by_cases h0 : k0 = k
    · subst h0
      rw [if_pos rfl]
      by_cases h : key = k0
      · rw [if_pos h, h, mapGet_cons_self]
      · rw [if_neg h, mapGet_cons_of_ne _ _ _ _ h, mapGet_cons_of_ne _ _ _ _ h]
    · rw [if_neg h0]
      by_cases h : key = k0
      · have hk : ¬ key = k := by rw [h]; exact h0
        rw [if_neg hk, h, mapGet_cons_self, mapGet_cons_self]
      · rw [mapGet_cons_of_ne _ _ _ _ h, mapGet_cons_of_ne _ _ _ _ h, ih]

theorem mapGet_eq_none_of_not_mem (m : GoMap) (key : List Char)
    (h : key ∉ m.map Prod.fst) : mapGet m key = none := by
  induction m with
  | nil => rfl
  | cons b m ih =>
    obtain ⟨k0, v0⟩ := b
    simp only [List.map_cons, List.mem_cons, not_or] at h
    rw [mapGet_cons_of_ne _ _ _ _ h.1]
    exact ih h.2

theorem mapGet_eq_some_iff (m : GoMap) (hnd : (m.map Prod.fst).Nodup) (key v : List Char) :
    mapGet m key = some v ↔ (key, v) ∈ m := by
  induction m with
  | nil => simp [mapGet]
  | cons b m ih =>
    obtain ⟨k0, v0⟩ := b
    simp only [List.map_cons, List.nodup_cons] at hnd
    by_cases h : key = k0
    · subst h
      rw [mapGet_cons_self]
      constructor
      · intro hv
        cases hv
        exact List.mem_cons_self _ _
      · intro hmem
        rcases List.mem_cons.mp hmem with hh | hh
        · cases hh; rfl
        · exact absurd (List.mem_map_of_mem Prod.fst hh) hnd.1
    · rw [mapGet_cons_of_ne _ _ _ _ h, ih hnd.2]
      constructor
      · intro hmem; exact List.mem_cons_of_mem _ hmem
      · intro hmem
        rcases List.mem_cons.mp hmem with hh | hh
        · cases hh; exact absurd rfl h
        · exact hh

theorem mapGet_perm (m1 m2 : GoMap) (hp : m1.Perm m2) (hnd : (m2.map Prod.fst).Nodup)
    (key : List Char) : mapGet m1 key = mapGet m2 key := by
  have hnd1 : (m1.map Prod.fst).Nodup := (hp.map Prod.fst).nodup_iff.mpr hnd
  cases h2 : mapGet m2 key with
  | some v =>
    rw [mapGet_eq_some_iff m1 hnd1]
    exact hp.mem_iff.mpr ((mapGet_eq_some_iff m2 hnd key v).mp h2)
  | none =>
    cases h1 : mapGet m1 key with
    | none => rfl
    | some v =>
      have := (mapGet_eq_some_iff m2 hnd key v).mpr
        (hp.mem_iff.mp ((mapGet_eq_some_iff m1 hnd1 key v).mp h1))
      rw [h2] at this
      exact Option.noConfusion this

theorem dropWhile_dropWhile_of_imp (p q : Char → Bool) (hpq : ∀ c, p c = true → q c = true)
    (s : List Char) : (s.dropWhile p).dropWhile q = s.dropWhile q := by
  induction s with
  | nil => rfl
  | cons c cs ih =>
    by_cases hp : p c = true
    · rw [List.dropWhile_cons_of_pos hp, ih, List.dropWhile_cons_of_pos (hpq c hp)]
    · rw [List.dropWhile_cons_of_neg hp]

theorem trim_concat_of_pos (q : Char → Bool) (a : Char) (ha : q a = true) (l : List Char) :
    ((l ++ [a]).dropWhile q).rdropWhile q = (l.dropWhile q).rdropWhile q := by
  induction l with
  | nil =>
    rw [List.nil_append, List.dropWhile_cons_of_pos ha]
  | cons x xs ih =>
    by_cases hx : q x = true
    · rw [List.cons_append, List.dropWhile_cons_of_pos hx, List.dropWhile_cons_of_pos hx, ih]
    · rw [List.cons_append, List.dropWhile_cons_of_neg hx, List.dropWhile_cons_of_neg hx,
        ← List.cons_append, List.rdropWhile_concat_pos _ _ _ ha]

theorem trim_rdropWhile_of_imp (p q : Char → Bool) (hpq : ∀ c, p c = true → q c = true)
    (u : List Char) :
    ((u.rdropWhile p).dropWhile q).rdropWhile q = (u.dropWhile q).rdropWhile q := by
  induction u using List.reverseRecOn with
  | nil => rfl
  | append_singleton l a ih =>
    by_cases ha : p a = true
    · rw [List.rdropWhile_concat_pos _ _ _ ha, ih, trim_concat_of_pos q a (hpq a ha)]
    · rw [List.rdropWhile_concat_neg _ _ _ ha]

theorem TrimSpace_Trim_newline (s : List Char) : TrimSpace (Trim s "\n".toList) = TrimSpace s := by
  have hpq : ∀ c, (fun c => "\n".toList.contains c) c = true → isSpace c = true := by
    intro c hc
    have : c = '\n' := by simpa using hc
    rw [this]
    rfl
  unfold TrimSpace Trim
  rw [trim_rdropWhile_of_imp _ isSpace hpq, dropWhile_dropWhile_of_imp _ isSpace hpq]

theorem DeviceTracking_seedLoop_get (seed : GoMap) :
    (seed.map Prod.fst).Nodup → ∀ (attrs : GoMap) (key : List Char),
      mapGet (DeviceTracking.seedLoop attrs seed) key =
        match mapGet seed key with
        | some v => some v
        | none => mapGet attrs key := by
  induction seed with
  | nil => intro _ attrs key; rfl
  | cons b rest ih =>
    obtain ⟨k, v⟩ := b
    intro hnd attrs key
    simp only [List.map_cons, List.nodup_cons] at hnd
    unfold DeviceTracking.seedLoop
    rw [ih hnd.2, mapGet_mapSet]
    by_cases h : key = k
    · subst h
      rw [mapGet_eq_none_of_not_mem rest key hnd.1, mapGet_cons_self]
      simp only [if_true]
    · rw [mapGet_cons_of_ne _ _ _ _ h, if_neg h]

theorem DeviceTracking_propsLoop_get (shell : RunShellCommand) (serial : List Char)
    (order : GoMap) :
    (order.map Prod.fst).Nodup → ∀ (attrs : GoMap) (key : List Char),
      mapGet (DeviceTracking.propsLoop shell serial attrs order) key =
        match mapGet order key with
        | none => mapGet attrs key
        | some prop =>
          match shell serial "getprop".toList [prop] with
          | (out, none) => some (TrimSpace out)
          | (_, some _) => mapGet attrs key := by
  induction order with
  | nil => intro _ attrs key; rfl
  | cons b rest ih =>
    obtain ⟨k, v⟩ := b
    intro hnd attrs key
    simp only [List.map_cons, List.nodup_cons] at hnd
    unfold DeviceTracking.propsLoop
    rcases hq : shell serial "getprop".toList [v] with ⟨out, _ | err⟩
    · simp only
      rw [ih hnd.2, mapGet_mapSet, TrimSpace_Trim_newline]
      by_cases h : key = k
      · subst h
        rw [mapGet_eq_none_of_not_mem rest key hnd.1, mapGet_cons_self]
        simp only [if_true, hq]
      · rw [mapGet_cons_of_ne _ _ _ _ h, if_neg h]
    · simp only
      rw [ih hnd.2]
      by_cases h : key = k
      · subst h
        rw [mapGet_eq_none_of_not_mem rest key hnd.1, mapGet_cons_self]
        simp only [hq]
      · rw [mapGet_cons_of_ne _ _ _ _ h]

theorem DeviceTracking_serialsLoop_eq (lines : List (List Char)) :
    ∀ serials : List (List Char),
      DeviceTracking.serialsLoop serials lines = .ok (serials ++ lines.filterMap serialOfLine) := by
  induction lines with
  | nil => intro serials; simp [DeviceTracking.serialsLoop]
  | cons line rest ih =>
    intro serials
    unfold DeviceTracking.serialsLoop
    by_cases hlen : (Fields line).length < 2
    · have h2 : ¬ 2 ≤ (Fields line).length := by omega
      simp only [hlen, if_true, ih, List.filterMap_cons, serialOfLine, h2, if_false]
    · have h2 : 2 ≤ (Fields line).length := by omega
      cases hf : Fields line with
      | nil => rw [hf] at h2; simp at h2
      | cons f0 fs =>
        rw [hf] at hlen h2
        simp only [hlen, if_false, index_cons_zero, ih, List.filterMap_cons, serialOfLine, hf, h2,
          if_true, List.head?_cons, List.append_assoc, List.singleton_append]

theorem baseMetas_keys_nodup : (baseMetas.map Prod.fst).Nodup := by decide

theorem DeviceTracking_attrs_get (shell : RunShellCommand) (order : GoMap) (metas : List GoMap)
    (serial key : List Char) (hperm : order.Perm baseMetas)
    (hseed : ∀ m ∈ metas.head?, (m.map Prod.fst).Nodup) :
    mapGet (DeviceTracking.propsLoop shell serial (DeviceTracking.seedAttrs metas) order) key =
      trackedAttr shell metas serial key := by
  have hnd : (order.map Prod.fst).Nodup :=
    (hperm.map Prod.fst).nodup_iff.mpr baseMetas_keys_nodup
  rw [DeviceTracking_propsLoop_get shell serial order hnd,
    mapGet_perm order baseMetas hperm baseMetas_keys_nodup]
  unfold trackedAttr DeviceTracking.seedAttrs
  cases metas with
  | nil =>
    cases mapGet baseMetas key with
    | none => rfl
    | some prop =>
      simp only
      rcases shell serial "getprop".toList [prop] with ⟨out, _ | err⟩ <;> rfl
  | cons m more =>
    have hs : mapGet (DeviceTracking.seedLoop [] m) key = mapGet m key := by
      rw [DeviceTracking_seedLoop_get m (hseed m (by simp))]
      cases mapGet m key <;> rfl
    simp only [hs]

theorem DeviceTracking_devicesLoop_spec (shell : RunShellCommand) (visit : Nat → GoMap)
    (c : Client) (metas : List GoMap) (hvisit : ∀ i, (visit i).Perm baseMetas)
    (hseed : ∀ m ∈ metas.head?, (m.map Prod.fst).Nodup) (serials : List (List Char)) :
    ∀ (i : Nat) (devices : List Device), ∃ ds : List Device,
      DeviceTracking.devicesLoop shell visit c metas i devices serials = devices ++ ds
      ∧ ds.map Device.serial = serials
      ∧ ∀ d ∈ ds, d.adbClient = c
          ∧ ∀ key, mapGet d.attrs key = trackedAttr shell metas d.serial key := by
  induction serials with
  | nil => intro i devices; exact ⟨[], by simp [DeviceTracking.devicesLoop], rfl, by simp⟩
  | cons serial rest ih =>
    intro i devices
    unfold DeviceTracking.devicesLoop
    simp only
    obtain ⟨ds, h1, h2, h3⟩ := ih (i + 1) (devices ++ [⟨c, serial,
      DeviceTracking.propsLoop shell serial (DeviceTracking.seedAttrs metas) (visit i)⟩])
    refine ⟨⟨c, serial, DeviceTracking.propsLoop shell serial (DeviceTracking.seedAttrs metas)
      (visit i)⟩ :: ds, ?_, ?_, ?_⟩
    · rw [h1, List.append_assoc, List.singleton_append]
    · rw [List.map_cons, h2]
    · intro d hd
      rcases List.mem_cons.mp hd with hd | hd
      · rw [hd]
        exact ⟨rfl, fun key =>
          DeviceTracking_attrs_get shell (visit i) metas serial key (hvisit i) hseed⟩
      · exact h3 d hd

/-- C11: on every payload returned for `host:track-devices`, with any seed
mapping and any outcome of the property queries, and whatever the order in
which the six baseline keys are visited, `DeviceTracking` succeeds (no panic,
nil error) and returns, in payload order, one `Device` per line with at least 2
fields, its serial being the first field. Under every key the attributes of
that device hold the white-space trimmed output of the query when the key is
one of the six and its query succeeded, and otherwise what the seed holds; a
failed query writes nothing. Without a seed, a baseline key is present exactly
when its query succeeded, so one failure leaves the other five. -/
theorem DeviceTracking_spec (newTransport : NewTransport) (shell : RunShellCommand)
    (visit : Nat → GoMap) (c : Client) (metas : List GoMap) (payload : List Char)
    (h : (executeCommand newTransport c "host:track-devices".toList []).result = (payload, none))
    (hvisit : ∀ i, (visit i).Perm baseMetas)
    (hseed : ∀ m ∈ metas.head?, (m.map Prod.fst).Nodup) :
    ∃ devices : List Device,
      (DeviceTracking newTransport shell visit c metas).result = .ok (devices, none)
      ∧ devices.map Device.serial = (Split payload "\n".toList).filterMap serialOfLine
      ∧ (∀ d ∈ devices, d.adbClient = c
          ∧ ∀ key, mapGet d.attrs key = trackedAttr shell metas d.serial key)
      ∧ (metas = [] → ∀ d ∈ devices, ∀ kv ∈ baseMetas,
          ((mapGet d.attrs kv.1).isSome = true ↔
            (shell d.serial "getprop".toList [kv.2]).2 = none)) := by
  obtain ⟨ds, h1, h2, h3⟩ := DeviceTracking_devicesLoop_spec shell visit c metas hvisit hseed
    ((Split payload "\n".toList).filterMap serialOfLine) 0 []
  refine ⟨ds, ?_, h2, h3, ?_⟩
  · unfold DeviceTracking
    simp only [h, DeviceTracking_serialsLoop_eq, List.nil_append, h1]
  · intro hm d hd kv hkv
    obtain ⟨k, prop⟩ := kv
    have hget : mapGet baseMetas k = some prop :=
      (mapGet_eq_some_iff baseMetas baseMetas_keys_nodup k prop).mpr hkv
    rw [(h3 d hd).2 k]
    unfold trackedAttr
    rw [hm, hget]
    simp only
    rcases shell d.serial "getprop".toList [prop] with ⟨out, _ | err⟩ <;> simp

/-- The witness of the tracking: with one device, no seed and a failing query
of `ro.product.model`, the device is returned with the other five attributes,
each trimmed. -/
theorem DeviceTracking_spec_witness :
    (∃ devices : List Device,
      (DeviceTracking (okServer "emulator-5554\tdevice\n".toList)
          (sampleShell "ro.product.model".toList) (fun _ => baseMetas)
          ⟨"localhost".toList, 5037⟩ []).result = .ok (devices, none)
      ∧ devices.map Device.serial = ["emulator-5554".toList])
    ∧ (DeviceTracking (okServer "emulator-5554\tdevice\n".toList)
          (sampleShell "ro.product.model".toList) (fun _ => baseMetas)
          ⟨"localhost".toList, 5037⟩ []).result =
        .ok ([⟨⟨"localhost".toList, 5037⟩, "emulator-5554".toList,
          [("serial".toList, "ro.serialno".toList),
           ("name".toList, "ro.product.name".toList),
           ("brand".toList, "ro.product.brand".toList),
           ("product".toList, "ro.build.product".toList),
           ("version".toList, "ro.build.version.release".toList)]⟩], none) :=
  ⟨(DeviceTracking_spec (okServer "emulator-5554\tdevice\n".toList)
      (sampleShell "ro.product.model".toList) (fun _ => baseMetas)
      ⟨"localhost".toList, 5037⟩ [] "emulator-5554\tdevice\n".toList
      (by decide) (fun _ => List.Perm.refl _) (by simp)).imp
      (fun _ hd => ⟨hd.1, hd.2.1.trans (by decide)⟩),
   by decide⟩

/-! ## Errors of the exchange -/

theorem headD_default_flag (flags : List Bool) :
    (if flags.length = 0 then [false] else flags).headD false = flags.headD false := by
  cases flags <;> rfl

theorem executeCommand_open_error (newTransport : NewTransport) (c : Client)
    (command : List Char) (flags : List Bool) (e : GoError)
    (h : (newTransport (addressOf c)).2 = some e) :
    executeCommand newTransport c command flags =
      ⟨([], some e), [.newTransport (addressOf c)]⟩ := by
  unfold executeCommand createTransport
  simp only
  rcases hnt : newTransport (c.host ++ ":".toList ++ formatInt c.port) with ⟨tp, _ | err⟩
  · unfold addressOf at h
    rw [hnt] at h
    exact Option.noConfusion h
  · unfold addressOf at h ⊢
    rw [hnt] at h
    simp only [Option.some.injEq] at h
    rw [h]

theorem executeCommand_opened (newTransport : NewTransport) (c : Client)
    (command : List Char) (flags : List Bool) (tp : transport)
    (h : newTransport (addressOf c) = (tp, none)) :
    executeCommand newTransport c command flags =
      match tp.Send command with
      | some err => ⟨([], some err), [.newTransport (addressOf c), .Send command, .Close]⟩
      | none =>
        match tp.VerifyResponse command with
        | some err =>
          ⟨([], some err), [.newTransport (addressOf c), .Send command, .VerifyResponse, .Close]⟩
        | none =>
          if flags.headD false then
            ⟨([], none), [.newTransport (addressOf c), .Send command, .VerifyResponse, .Close]⟩
          else
            match tp.UnpackString command with
            | (_, some err) =>
              ⟨([], some err), [.newTransport (addressOf c), .Send command, .VerifyResponse,
                .UnpackString, .Close]⟩
            | (resp, none) =>
              ⟨(resp, none), [.newTransport (addressOf c), .Send command, .VerifyResponse,
                .UnpackString, .Close]⟩ := by
  unfold addressOf at h ⊢
  unfold executeCommand createTransport
  simp only [h, headD_default_flag, List.singleton_append]

/-- C12: in `executeCommand`, when opening the transport, `Send`,
`VerifyResponse` (in particular on a FAIL status) or `UnpackString` returns an
error `e`, the run returns the empty string with exactly `e`, and its transport
calls stop at the failing step, followed only by `Close` when the transport was
opened: no later read, no retry. Every operation built on it (`CommandRun`,
`ServerVersion`, `DeviceSerialList`, `DeviceList`, `ForwardList`,
`ForwardKillAll`, `Connect`, `Disconnect`, `DisconnectAll`, `DeviceTracking`)
returns that same `e` with an empty result and makes no transport call of its
own. -/
theorem executeCommand_error_propagates (newTransport : NewTransport) (c : Client)
    (e : GoError) :
    (∀ (command : List Char) (flags : List Bool),
        ((newTransport (addressOf c)).2 = some e →
          executeCommand newTransport c command flags =
            ⟨([], some e), [.newTransport (addressOf c)]⟩)
      ∧ (∀ tp : transport, newTransport (addressOf c) = (tp, none) →
          (tp.Send command = some e →
            executeCommand newTransport c command flags =
              ⟨([], some e), [.newTransport (addressOf c), .Send command, .Close]⟩)
        ∧ (tp.Send command = none → tp.VerifyResponse command = some e →
            executeCommand newTransport c command flags =
              ⟨([], some e),
                [.newTransport (addressOf c), .Send command, .VerifyResponse, .Close]⟩)
        ∧ (tp.Send command = none → tp.VerifyResponse command = none →
            flags.headD false = false → (tp.UnpackString command).2 = some e →
            executeCommand newTransport c command flags =
              ⟨([], some e), [.newTransport (addressOf c), .Send command, .VerifyResponse,
                .UnpackString, .Close]⟩)))
    ∧ (∀ (command : List Char) (flags : List Bool),
        CommandRun newTransport c command flags = executeCommand newTransport c command flags)
    ∧ (∀ x : List Char,
        ((executeCommand newTransport c "host:version".toList []).result = (x, some e) →
          ∀ intSize : IntSize, ServerVersion intSize newTransport c =
            ⟨(0, some e), (executeCommand newTransport c "host:version".toList []).calls⟩)
      ∧ ((executeCommand newTransport c "host:devices".toList []).result = (x, some e) →
          (DeviceSerialList newTransport c).result = .ok ([], some e)
          ∧ (DeviceSerialList newTransport c).calls =
              (executeCommand newTransport c "host:devices".toList []).calls)
      ∧ ((executeCommand newTransport c "host:devices-l".toList []).result = (x, some e) →
          (DeviceList newTransport c).result = .ok ([], some e)
          ∧ (DeviceList newTransport c).calls =
              (executeCommand newTransport c "host:devices-l".toList []).calls)
      ∧ ((executeCommand newTransport c "host:list-forward".toList []).result = (x, some e) →
          (ForwardList newTransport c).result = .ok ([], some e)
          ∧ (ForwardList newTransport c).calls =
              (executeCommand newTransport c "host:list-forward".toList []).calls)
      ∧ ((executeCommand newTransport c "host:killforward-all".toList [true]).result
            = (x, some e) →
          ForwardKillAll newTransport c =
            ⟨some e, (executeCommand newTransport c "host:killforward-all".toList [true]).calls⟩)
      ∧ (∀ (ip : List Char) (port : List Int),
          (executeCommand newTransport c (connectCommand ip port) []).result = (x, some e) →
          Connect newTransport c ip port =
            ⟨some e, (executeCommand newTransport c (connectCommand ip port) []).calls⟩)
      ∧ (∀ (ip : List Char) (port : List Int),
          (executeCommand newTransport c (disconnectCommand ip port) []).result = (x, some e) →
          Disconnect newTransport c ip port =
            ⟨some e, (executeCommand newTransport c (disconnectCommand ip port) []).calls⟩)
      ∧ ((executeCommand newTransport c "host:disconnect:".toList []).result = (x, some e) →
          DisconnectAll newTransport c =
            ⟨some e, (executeCommand newTransport c "host:disconnect:".toList []).calls⟩)
      ∧ (∀ (shell : RunShellCommand) (visit : Nat → GoMap) (metas : List GoMap),
          (executeCommand newTransport c "host:track-devices".toList []).result = (x, some e) →
          (DeviceTracking newTransport shell visit c metas).result = .ok ([], some e)
          ∧ (DeviceTracking newTransport shell visit c metas).calls =
              (executeCommand newTransport c "host:track-devices".toList []).calls)) := by
  refine ⟨?_, fun _ _ => rfl, ?_⟩
  · intro command flags
    refine ⟨executeCommand_open_error newTransport c command flags e, ?_⟩
    intro tp htp
    rw [executeCommand_opened newTransport c command flags tp htp]
    refine ⟨?_, ?_, ?_⟩
    · intro h1
      simp only [h1]
    · intro h1 h2
      simp only [h1, h2]
    · intro h1 h2 h3 h4
      have h5 : tp.UnpackString command = ((tp.UnpackString command).1, some e) :=
        Prod.ext rfl h4
      simp only [h1, h2, h3, Bool.false_eq_true, if_false]
      rw [h5]
  · intro x
    refine ⟨?_, ?_, ?_, ?_, ?_, ?_, ?_, ?_, ?_⟩
    · intro h intSize
      unfold ServerVersion
      simp only [h]
    · intro h
      unfold DeviceSerialList
      simp only [h, and_self]
    · intro h
      unfold DeviceList
      simp only [h, and_self]
    · intro h
      unfold ForwardList
      simp only [h, and_self]
    · intro h
      unfold ForwardKillAll
      simp only [h]
    · intro ip port h
      unfold connectCommand at h ⊢
      unfold Connect
      simp only [h]
    · intro ip port h
      have hcmd : (if port.length ≠ 0 then
            "host:disconnect:".toList ++ ip ++ ":".toList ++ formatInt (port.headD 0)
          else "host:disconnect:".toList ++ ip) = disconnectCommand ip port := by
        cases port <;> rfl
      unfold Disconnect
      simp only [hcmd, h]
    · intro h
      unfold DisconnectAll
      simp only [h]
    · intro shell visit metas h
      unfold DeviceTracking
      simp only [h, and_self]

/-- The witness of C12: against a server answering FAIL, `DeviceList` returns
the error of `VerifyResponse` itself with no device, after the calls
open, `Send`, `VerifyResponse`, `Close`. -/
theorem executeCommand_error_propagates_witness :
    (DeviceList (failingServer 2 (.errorString "device offline".toList) [])
        ⟨"localhost".toList, 5037⟩).result
      = .ok ([], some (.errorString "device offline".toList))
    ∧ (DeviceList (failingServer 2 (.errorString "device offline".toList) [])
        ⟨"localhost".toList, 5037⟩).calls
      = [.newTransport "localhost:5037".toList, .Send "host:devices-l".toList,
          .VerifyResponse, .Close] :=
  ⟨((executeCommand_error_propagates
      (failingServer 2 (.errorString "device offline".toList) [])
      ⟨"localhost".toList, 5037⟩ (.errorString "device offline".toList)).2.2 []).2.2.1
      (by decide) |>.1,
   (((executeCommand_error_propagates
      (failingServer 2 (.errorString "device offline".toList) [])
      ⟨"localhost".toList, 5037⟩ (.errorString "device offline".toList)).2.2 []).2.2.1
      (by decide) |>.2).trans (by decide)⟩

/-! ## Status-only commands and the release of the transport -/

/-- C13: when the transport opens and sending and status verification succeed,
`CommandRun(text, true)` returns the empty string with a nil error and makes no
`UnpackString` call, while `CommandRun(text)` and `CommandRun(text, false)` are
the same run and return exactly the payload `UnpackString` read.
`ForwardKillAll` is the verify-only run of `host:killforward-all`: it succeeds
exactly when the transport opens and `Send` and `VerifyResponse` succeed, and
it never calls `UnpackString`. -/
theorem CommandRun_verifyOnly (newTransport : NewTransport) (c : Client) (text : List Char) :
    (∀ tp : transport, newTransport (addressOf c) = (tp, none) →
        tp.Send text = none → tp.VerifyResponse text = none →
        CommandRun newTransport c text [true] =
            ⟨([], none), [.newTransport (addressOf c), .Send text, .VerifyResponse, .Close]⟩
        ∧ Call.UnpackString ∉ (CommandRun newTransport c text [true]).calls
        ∧ CommandRun newTransport c text [] = CommandRun newTransport c text [false]
        ∧ (∀ payload, tp.UnpackString text = (payload, none) →
            CommandRun newTransport c text [] =
              ⟨(payload, none), [.newTransport (addressOf c), .Send text, .VerifyResponse,
                .UnpackString, .Close]⟩))
    ∧ ((ForwardKillAll newTransport c).result = none ↔
        ∃ tp : transport, newTransport (addressOf c) = (tp, none)
          ∧ tp.Send "host:killforward-all".toList = none
          ∧ tp.VerifyResponse "host:killforward-all".toList = none)
    ∧ Call.UnpackString ∉ (ForwardKillAll newTransport c).calls
    ∧ (ForwardKillAll newTransport c).result =
        (CommandRun newTransport c "host:killforward-all".toList [true]).result.2 := by
  refine ⟨?_, ?_, ?_, rfl⟩
  · intro tp htp hsend hverify
    have e1 : CommandRun newTransport c text [true] =
        ⟨([], none), [.newTransport (addressOf c), .Send text, .VerifyResponse, .Close]⟩ := by
      unfold CommandRun
      rw [executeCommand_opened newTransport c text [true] tp htp]
      simp only [hsend, hverify, List.headD_cons, if_true]
    refine ⟨e1, ?_, ?_, ?_⟩
    · rw [e1]
      simp
    · unfold CommandRun
      rw [executeCommand_opened newTransport c text [] tp htp,
        executeCommand_opened newTransport c text [false] tp htp]
      rfl
    · intro payload hp
      unfold CommandRun
      rw [executeCommand_opened newTransport c text [] tp htp]
      simp only [hsend, hverify, hp, List.headD_nil, Bool.false_eq_true, if_false]
  · unfold ForwardKillAll
    simp only
    rcases hnt : newTransport (addressOf c) with ⟨tp, _ | err⟩
    · rw [executeCommand_opened newTransport c _ [true] tp hnt]
      constructor
      · intro h
        refine ⟨tp, rfl, ?_⟩
        cases hs : tp.Send "host:killforward-all".toList with
        | some e => rw [hs] at h; exact Option.noConfusion h
        | none =>
          refine ⟨rfl, ?_⟩
          cases hv : tp.VerifyResponse "host:killforward-all".toList with
          | some e => rw [hs, hv] at h; exact Option.noConfusion h
          | none => rfl
      · rintro ⟨tp2, h2, hs, hv⟩
        have : tp2 = tp := (Prod.mk.inj h2).1.symm
        subst this
        simp only [hs, hv, List.headD_cons, if_true]
    · rw [executeCommand_open_error newTransport c _ [true] err (by rw [hnt])]
      constructor
      · intro h
        exact Option.noConfusion h
      · rintro ⟨tp2, h2, _⟩
        exact Option.noConfusion (Prod.mk.inj h2).2
  · unfold ForwardKillAll
    simp only
    rcases hnt : newTransport (addressOf c) with ⟨tp, _ | err⟩
    · rw [executeCommand_opened newTransport c _ [true] tp hnt]
      cases tp.Send "host:killforward-all".toList with
      | some e => simp
      | none =>
        cases tp.VerifyResponse "host:killforward-all".toList with
        | some e => simp
        | none => simp
    · rw [executeCommand_open_error newTransport c _ [true] err (by rw [hnt])]
      simp

/-- The witness of C13: on a server with payload "List of devices", the
verify-only run returns the empty string and the plain run the payload. -/
theorem CommandRun_verifyOnly_witness :
    (CommandRun (okServer "List of devices".toList) ⟨"localhost".toList, 5037⟩
        "host:devices".toList [true]).result = ([], none)
    ∧ (CommandRun (okServer "List of devices".toList) ⟨"localhost".toList, 5037⟩
        "host:devices".toList []).result = ("List of devices".toList, none) :=
  ⟨congrArg Run.result (((CommandRun_verifyOnly (okServer "List of devices".toList)
      ⟨"localhost".toList, 5037⟩ "host:devices".toList).1 _ rfl rfl rfl).1),
   congrArg Run.result (((CommandRun_verifyOnly (okServer "List of devices".toList)
      ⟨"localhost".toList, 5037⟩ "host:devices".toList).1 _ rfl rfl rfl).2.2.2
      "List of devices".toList rfl)⟩

theorem KillServer_eq (newTransport : NewTransport) (c : Client) :
    KillServer newTransport c =
      match newTransport (addressOf c) with
      | (_, some err) => ⟨some err, [.newTransport (addressOf c)]⟩
      | (tp, none) =>
        ⟨tp.Send "host:kill".toList,
          [.newTransport (addressOf c), .Send "host:kill".toList, .Close]⟩ := by
  unfold KillServer createTransport addressOf
  simp only
  rcases newTransport (c.host ++ ":".toList ++ formatInt c.port) with ⟨tp, _ | err⟩ <;> rfl

theorem NewClientWith_calls (newTransport : NewTransport) (host : List Char) (port : List Int) :
    (NewClientWith newTransport host port).calls =
      match newTransport
          (addressOf ⟨host, (if port.length = 0 then [AdbServerPort] else port).headD 0⟩) with
      | (_, some _) =>
        [.newTransport
          (addressOf ⟨host, (if port.length = 0 then [AdbServerPort] else port).headD 0⟩)]
      | (_, none) =>
        [.newTransport
          (addressOf ⟨host, (if port.length = 0 then [AdbServerPort] else port).headD 0⟩),
          .Close] := by
  unfold NewClientWith createTransport addressOf
  simp only
  rcases newTransport (host ++ ":".toList ++
    formatInt ((if port.length = 0 then [AdbServerPort] else port).headD 0))
    with ⟨tp, _ | err⟩ <;> rfl

/-- C14: every run of `executeCommand`, of `KillServer` and of `NewClientWith`
opens exactly one transport, first. When it was opened, `Close` is called
exactly once and is the last call of the run, whichever of `Send`,
`VerifyResponse` or `UnpackString` failed; when opening failed, nothing is
called on a transport. -/
theorem transport_closed_once (newTransport : NewTransport) (c : Client)
    (command : List Char) (flags : List Bool) (host : List Char) (port : List Int) :
    closedOnce (newTransport (addressOf c)).2.isNone
        (executeCommand newTransport c command flags).calls
    ∧ closedOnce (newTransport (addressOf c)).2.isNone (KillServer newTransport c).calls
    ∧ closedOnce
        (newTransport
          (addressOf ⟨host, (if port.length = 0 then [AdbServerPort] else port).headD 0⟩)).2.isNone
        (NewClientWith newTransport host port).calls := by
  refine ⟨?_, ?_, ?_⟩
  · rcases hnt : newTransport (addressOf c) with ⟨tp, _ | err⟩
    · rw [executeCommand_opened newTransport c command flags tp hnt]
      cases tp.Send command with
      | some e => simp [closedOnce, isOpenCall]
      | none =>
        cases tp.VerifyResponse command with
        | some e => simp [closedOnce, isOpenCall]
        | none =>
          cases flags.headD false with
          | true => simp [closedOnce, isOpenCall]
          | false =>
            rcases tp.UnpackString command with ⟨resp, _ | e⟩ <;>
              simp [closedOnce, isOpenCall]
    · rw [executeCommand_open_error newTransport c command flags err (by rw [hnt])]
      simp [closedOnce, isOpenCall]
  · rw [KillServer_eq]
    rcases newTransport (addressOf c) with ⟨tp, _ | err⟩ <;> simp [closedOnce, isOpenCall]
  · rw [NewClientWith_calls]
    rcases newTransport
      (addressOf ⟨host, (if port.length = 0 then [AdbServerPort] else port).headD 0⟩)
      with ⟨tp, _ | err⟩ <;> simp [closedOnce, isOpenCall]

/-- C15, as the claim states it, fails: on a server where every step succeeds
`KillServer` returns without any `VerifyResponse` call, so it never reads the
response status; its calls are open, `Send("host:kill")`, `Close`. -/
theorem KillServer_does_not_read_status :
    (KillServer (okServer []) ⟨"localhost".toList, 5037⟩).result = none
    ∧ Call.VerifyResponse ∉ (KillServer (okServer []) ⟨"localhost".toList, 5037⟩).calls
    ∧ (KillServer (okServer []) ⟨"localhost".toList, 5037⟩).calls =
        [.newTransport "localhost:5037".toList, .Send "host:kill".toList, .Close] := by
  decide

/-- C15, amended: `KillServer` sends exactly the command `host:kill` (nothing
when the transport cannot be opened), returns what `Send` returns, then closes
the transport; it reads neither the response status nor a payload. -/
theorem KillServer_sends_kill_only (newTransport : NewTransport) (c : Client) :
    sentCommands (KillServer newTransport c).calls =
        (if (newTransport (addressOf c)).2 = none then ["host:kill".toList] else [])
    ∧ Call.VerifyResponse ∉ (KillServer newTransport c).calls
    ∧ Call.UnpackString ∉ (KillServer newTransport c).calls
    ∧ (∀ tp : transport, newTransport (addressOf c) = (tp, none) →
        KillServer newTransport c =
          ⟨tp.Send "host:kill".toList,
            [.newTransport (addressOf c), .Send "host:kill".toList, .Close]⟩) := by
  rw [KillServer_eq]
  rcases newTransport (addressOf c) with ⟨tp, _ | err⟩
  · refine ⟨rfl, by simp, by simp, ?_⟩
    intro tp2 h2
    have : tp = tp2 := (Prod.mk.inj h2).1
    rw [this]
  · refine ⟨rfl, by simp, by simp, ?_⟩
    intro tp2 h2
    exact Option.noConfusion (Prod.mk.inj h2).2

/-- The witness of the amended C15, against a server whose `Send` fails. -/
theorem KillServer_sends_kill_only_witness :
    KillServer (failingServer 1 (.errorString "broken pipe".toList) [])
        ⟨"localhost".toList, 5037⟩ =
      ⟨some (.errorString "broken pipe".toList),
        [.newTransport (addressOf ⟨"localhost".toList, 5037⟩), .Send "host:kill".toList,
          .Close]⟩ :=
  (KillServer_sends_kill_only (failingServer 1 (.errorString "broken pipe".toList) [])
    ⟨"localhost".toList, 5037⟩).2.2.2 _ rfl

/-! ## Disconnect -/

theorem Disconnect_command (ip : List Char) (port : List Int) :
    (if port.length ≠ 0 then
        "host:disconnect:".toList ++ ip ++ ":".toList ++ formatInt (port.headD 0)
      else "host:disconnect:".toList ++ ip) = disconnectCommand ip port := by
  cases port <;> rfl

theorem calls_Disconnect (newTransport : NewTransport) (c : Client) (ip : List Char)
    (port : List Int) :
    (Disconnect newTransport c ip port).calls =
      (executeCommand newTransport c (disconnectCommand ip port) []).calls := by
  unfold Disconnect
  simp only [Disconnect_command]
  split
  · rfl
  · split <;> rfl

/-- C16: for every ip, optional port and payload `r` returned with an OKAY
status, `Disconnect` succeeds exactly when `r` starts with "disconnected";
otherwise it fails with the error "adb disconnect: " followed by `r`, whose
message contains `r`. The one command it sends is `host:disconnect:<ip>`
without a port and `host:disconnect:<ip>:<port in decimal>` with one. -/
theorem Disconnect_spec (newTransport : NewTransport) (c : Client) (ip : List Char)
    (port : List Int) :
    (∀ r : List Char,
        (executeCommand newTransport c (disconnectCommand ip port) []).result = (r, none) →
        ((Disconnect newTransport c ip port).result = none ↔ "disconnected".toList <+: r)
        ∧ (¬ "disconnected".toList <+: r →
            (Disconnect newTransport c ip port).result =
                some (.errorString ("adb disconnect: ".toList ++ r))
            ∧ r <:+: ("adb disconnect: ".toList ++ r)))
    ∧ sentCommands (Disconnect newTransport c ip []).calls =
        (if (newTransport (addressOf c)).2 = none
          then ["host:disconnect:".toList ++ ip] else [])
    ∧ (∀ (p : Int) (more : List Int),
        sentCommands (Disconnect newTransport c ip (p :: more)).calls =
          (if (newTransport (addressOf c)).2 = none
            then ["host:disconnect:".toList ++ ip ++ ":".toList ++ formatInt p] else [])) := by
  refine ⟨?_, ?_, ?_⟩
  · intro r h
    have key : (Disconnect newTransport c ip port).result =
        if "disconnected".toList <+: r then none
        else some (.errorString ("adb disconnect: ".toList ++ r)) := by
      unfold Disconnect
      simp only [Disconnect_command, h]
      simp only [← HasPrefix_iff]
      generalize HasPrefix r "disconnected".toList = b
      cases b <;> simp
    constructor
    · rw [key]
      by_cases hp : "disconnected".toList <+: r
      · rw [if_pos hp]
        exact ⟨fun _ => hp, fun _ => rfl⟩
      · rw [if_neg hp]
        exact ⟨fun e => Option.noConfusion e, fun hq => absurd hq hp⟩
    · intro hp
      rw [key, if_neg hp]
      exact ⟨rfl, (List.suffix_append _ _).isInfix⟩
  · rw [calls_Disconnect, sentCommands_executeCommand]
    rfl
  · intro p more
    rw [calls_Disconnect, sentCommands_executeCommand]
    rfl

/-- The witness of C16: "disconnected 10.0.0.5:5555" is a success, and
"error: no such device" is the error "adb disconnect: error: no such device". -/
theorem Disconnect_spec_witness :
    (Disconnect (okServer "disconnected 10.0.0.5:5555".toList) ⟨"localhost".toList, 5037⟩
        "10.0.0.5".toList [5555]).result = none
    ∧ (Disconnect (okServer "error: no such device".toList) ⟨"localhost".toList, 5037⟩
        "10.0.0.5".toList []).result =
          some (.errorString "adb disconnect: error: no such device".toList) :=
  ⟨(((Disconnect_spec (okServer "disconnected 10.0.0.5:5555".toList)
      ⟨"localhost".toList, 5037⟩ "10.0.0.5".toList [5555]).1
      "disconnected 10.0.0.5:5555".toList (by decide)).1).mpr (by decide),
   ((((Disconnect_spec (okServer "error: no such device".toList)
      ⟨"localhost".toList, 5037⟩ "10.0.0.5".toList []).1
      "error: no such device".toList (by decide)).2) (by decide)).1.trans (by decide)⟩

/-- C17: for every payload `r` returned with an OKAY status, `DisconnectAll`
succeeds exactly when `r` starts with "disconnected everything"; otherwise it
fails with the error "adb disconnect all: " followed by `r`, whose message
contains `r`. -/
theorem DisconnectAll_spec (newTransport : NewTransport) (c : Client) (r : List Char)
    (h : (executeCommand newTransport c "host:disconnect:".toList []).result = (r, none)) :
    ((DisconnectAll newTransport c).result = none ↔ "disconnected everything".toList <+: r)
    ∧ (¬ "disconnected everything".toList <+: r →
        (DisconnectAll newTransport c).result =
            some (.errorString ("adb disconnect all: ".toList ++ r))
        ∧ r <:+: ("adb disconnect all: ".toList ++ r)) := by
  have key : (DisconnectAll newTransport c).result =
      if "disconnected everything".toList <+: r then none
      else some (.errorString ("adb disconnect all: ".toList ++ r)) := by
    unfold DisconnectAll
    simp only [h]
    simp only [← HasPrefix_iff]
    generalize HasPrefix r "disconnected everything".toList = b
    cases b <;> simp
  constructor
  · rw [key]
    by_cases hp : "disconnected everything".toList <+: r
    · rw [if_pos hp]
      exact ⟨fun _ => hp, fun _ => rfl⟩
    · rw [if_neg hp]
      exact ⟨fun e => Option.noConfusion e, fun hq => absurd hq hp⟩
  · intro hp
    rw [key, if_neg hp]
    exact ⟨rfl, (List.suffix_append _ _).isInfix⟩

/-- The witness of C17: "disconnected everything" is a success and
"disconnected 10.0.0.5:5555" is an error. -/
theorem DisconnectAll_spec_witness :
    (DisconnectAll (okServer "disconnected everything".toList)
        ⟨"localhost".toList, 5037⟩).result = none
    ∧ (DisconnectAll (okServer "disconnected 10.0.0.5:5555".toList)
        ⟨"localhost".toList, 5037⟩).result =
          some (.errorString "adb disconnect all: disconnected 10.0.0.5:5555".toList) :=
  ⟨(DisconnectAll_spec (okServer "disconnected everything".toList) ⟨"localhost".toList, 5037⟩
      "disconnected everything".toList (by decide)).1.mpr (by decide),
   ((DisconnectAll_spec (okServer "disconnected 10.0.0.5:5555".toList)
      ⟨"localhost".toList, 5037⟩ "disconnected 10.0.0.5:5555".toList (by decide)).2
      (by decide)).1.trans (by decide)⟩

/-! ## The serials of the tracking and the order of the queries -/

theorem DeviceTracking_devicesLoop_serials (shell : RunShellCommand) (visit : Nat → GoMap)
    (c : Client) (metas : List GoMap) (serials : List (List Char)) :
    ∀ (i : Nat) (devices : List Device),
      (DeviceTracking.devicesLoop shell visit c metas i devices serials).map Device.serial =
        devices.map Device.serial ++ serials := by
  induction serials with
  | nil => intro i devices; simp [DeviceTracking.devicesLoop]
  | cons serial rest ih =>
    intro i devices
    unfold DeviceTracking.devicesLoop
    simp only
    rw [ih, List.map_append, List.map_cons, List.map_nil, List.append_assoc,
      List.singleton_append]

theorem serialOfLine_eq :
    (fun line => if 2 ≤ (Fields line).length then (Fields line).head? else none) = serialOfLine :=
  rfl

/-- C18: the line parser of `DeviceTracking` and the one of `DeviceSerialList`
are the same function, and for every payload `p` returned to both, the serials
of the devices `DeviceTracking` returns are, in order, the sequence
`DeviceSerialList` returns. -/
theorem DeviceTracking_serials_eq_DeviceSerialList (newTransport1 newTransport2 : NewTransport)
    (shell : RunShellCommand) (visit : Nat → GoMap) (c : Client) (metas : List GoMap)
    (p : List Char)
    (h1 : (executeCommand newTransport1 c "host:track-devices".toList []).result = (p, none))
    (h2 : (executeCommand newTransport2 c "host:devices".toList []).result = (p, none)) :
    (∀ (serials : List (List Char)) (lines : List (List Char)),
        DeviceTracking.serialsLoop serials lines = DeviceSerialList.loop serials lines)
    ∧ ∃ (devices : List Device) (serials : List (List Char)),
        (DeviceTracking newTransport1 shell visit c metas).result = .ok (devices, none)
        ∧ (DeviceSerialList newTransport2 c).result = .ok (serials, none)
        ∧ devices.map Device.serial = serials := by
  constructor
  · intro serials lines
    rw [DeviceTracking_serialsLoop_eq, DeviceSerialList_loop_eq, serialOfLine_eq]
  · refine ⟨DeviceTracking.devicesLoop shell visit c metas 0 []
        ((Split p "\n".toList).filterMap serialOfLine),
      (Split p "\n".toList).filterMap serialOfLine, ?_, ?_, ?_⟩
    · unfold DeviceTracking
      simp only [h1, DeviceTracking_serialsLoop_eq, List.nil_append]
    · unfold DeviceSerialList
      simp only [h2, DeviceSerialList_loop_eq, List.nil_append, serialOfLine_eq]
    · rw [DeviceTracking_devicesLoop_serials]
      rfl

/-- The witness of C18 on the payload of two devices and a blank line. -/
theorem DeviceTracking_serials_eq_DeviceSerialList_witness :
    ∃ (devices : List Device) (serials : List (List Char)),
      (DeviceTracking (okServer "emulator-5554\tdevice\n\nZX1G22JJ7P\toffline\n".toList)
          (sampleShell []) (fun _ => baseMetas) ⟨"localhost".toList, 5037⟩ []).result
        = .ok (devices, none)
      ∧ (DeviceSerialList (okServer "emulator-5554\tdevice\n\nZX1G22JJ7P\toffline\n".toList)
          ⟨"localhost".toList, 5037⟩).result = .ok (serials, none)
      ∧ devices.map Device.serial = serials :=
  (DeviceTracking_serials_eq_DeviceSerialList
    (okServer "emulator-5554\tdevice\n\nZX1G22JJ7P\toffline\n".toList)
    (okServer "emulator-5554\tdevice\n\nZX1G22JJ7P\toffline\n".toList)
    (sampleShell []) (fun _ => baseMetas) ⟨"localhost".toList, 5037⟩ []
    "emulator-5554\tdevice\n\nZX1G22JJ7P\toffline\n".toList (by decide) (by decide)).2

theorem DeviceTracking_propsLoop_order (shell : RunShellCommand) (serial : List Char)
    (attrs : GoMap) (order1 order2 : GoMap) (h1 : order1.Perm baseMetas)
    (h2 : order2.Perm baseMetas) (key : List Char) :
    mapGet (DeviceTracking.propsLoop shell serial attrs order1) key =
      mapGet (DeviceTracking.propsLoop shell serial attrs order2) key := by
  have hnd1 : (order1.map Prod.fst).Nodup :=
    (h1.map Prod.fst).nodup_iff.mpr baseMetas_keys_nodup
  have hnd2 : (order2.map Prod.fst).Nodup :=
    (h2.map Prod.fst).nodup_iff.mpr baseMetas_keys_nodup
  rw [DeviceTracking_propsLoop_get shell serial order1 hnd1,
    DeviceTracking_propsLoop_get shell serial order2 hnd2,
    mapGet_perm order1 baseMetas h1 baseMetas_keys_nodup,
    mapGet_perm order2 baseMetas h2 baseMetas_keys_nodup]

theorem DeviceTracking_devicesLoop_order (shell : RunShellCommand) (visit1 visit2 : Nat → GoMap)
    (c : Client) (metas : List GoMap) (h1 : ∀ i, (visit1 i).Perm baseMetas)
    (h2 : ∀ i, (visit2 i).Perm baseMetas) (serials : List (List Char)) :
    ∀ (i : Nat) (devices1 devices2 : List Device),
      List.Forall₂ sameDevice devices1 devices2 →
      List.Forall₂ sameDevice
        (DeviceTracking.devicesLoop shell visit1 c metas i devices1 serials)
        (DeviceTracking.devicesLoop shell visit2 c metas i devices2 serials) := by
  induction serials with
  | nil => intro i devices1 devices2 h; simpa [DeviceTracking.devicesLoop] using h
  | cons serial rest ih =>
    intro i devices1 devices2 h
    unfold DeviceTracking.devicesLoop
    simp only
    apply ih
    apply List.rel_append h
    refine List.Forall₂.cons ⟨rfl, rfl, ?_⟩ List.Forall₂.nil
    intro key
    exact DeviceTracking_propsLoop_order shell serial _ (visit1 i) (visit2 i) (h1 i) (h2 i) key

/-- C19: the result of `DeviceTracking` does not depend on the order in which
the six baseline keys are visited. For any two visiting orders (each a
permutation of the six bindings, chosen anew for every serial), with the same
server, the same seed and a property query depending only on the serial and
the property name, both runs return the same error and the same sequence of
devices: same client, same serial, same attribute under every key. -/
theorem DeviceTracking_order_independent (newTransport : NewTransport)
    (shell : RunShellCommand) (visit1 visit2 : Nat → GoMap) (c : Client) (metas : List GoMap)
    (h1 : ∀ i, (visit1 i).Perm baseMetas) (h2 : ∀ i, (visit2 i).Perm baseMetas) :
    ∃ (devices1 devices2 : List Device) (err : Option GoError),
      (DeviceTracking newTransport shell visit1 c metas).result = .ok (devices1, err)
      ∧ (DeviceTracking newTransport shell visit2 c metas).result = .ok (devices2, err)
      ∧ List.Forall₂ sameDevice devices1 devices2 := by
  unfold DeviceTracking
  simp only [DeviceTracking_serialsLoop_eq, List.nil_append]
  rcases (executeCommand newTransport c "host:track-devices".toList []).result
    with ⟨resp, _ | e⟩
  · exact ⟨_, _, none, rfl, rfl,
      DeviceTracking_devicesLoop_order shell visit1 visit2 c metas h1 h2 _ 0 [] []
        List.Forall₂.nil⟩
  · exact ⟨[], [], some e, rfl, rfl, List.Forall₂.nil⟩

/-- The witness of C19: visiting the six keys in the order of the literal and
in the reverse order. -/
theorem DeviceTracking_order_independent_witness :
    ∃ (devices1 devices2 : List Device) (err : Option GoError),
      (DeviceTracking (okServer "emulator-5554\tdevice\n".toList)
          (sampleShell "ro.product.model".toList) (fun _ => baseMetas)
          ⟨"localhost".toList, 5037⟩ [[("name".toList, "seeded".toList)]]).result
        = .ok (devices1, err)
      ∧ (DeviceTracking (okServer "emulator-5554\tdevice\n".toList)
          (sampleShell "ro.product.model".toList) (fun _ => baseMetas.reverse)
          ⟨"localhost".toList, 5037⟩ [[("name".toList, "seeded".toList)]]).result
        = .ok (devices2, err)
      ∧ List.Forall₂ sameDevice devices1 devices2 :=
  DeviceTracking_order_independent (okServer "emulator-5554\tdevice\n".toList)
    (sampleShell "ro.product.model".toList) (fun _ => baseMetas) (fun _ => baseMetas.reverse)
    ⟨"localhost".toList, 5037⟩ [[("name".toList, "seeded".toList)]]
    (fun _ => List.Perm.refl _) (fun _ => List.reverse_perm _)

/-! ## The shape of the serials -/

theorem fieldsFrom_no_space (s : List Char) :
    ∀ cur : List Char, (∀ ch ∈ cur, isSpace ch = false) →
      ∀ f ∈ fieldsFrom cur s, ∀ ch ∈ f, isSpace ch = false := by
  induction s with
  | nil =>
    intro cur hcur f hf
    unfold fieldsFrom at hf
    cases cur with
    | nil => simp at hf
    | cons a t =>
      simp at hf
      rw [hf]
      exact hcur
  | cons c cs ih =>
    intro cur hcur f hf
    unfold fieldsFrom at hf
    by_cases hc : isSpace c = true
    · cases cur with
      | nil =>
        simp [hc] at hf
        exact ih [] (by simp) f hf
      | cons a t =>
        simp [hc] at hf
        rcases hf with hf | hf
        · rw [hf]
          exact hcur
        · exact ih [] (by simp) f hf
    · simp [hc] at hf
      refine ih (cur ++ [c]) ?_ f hf
      intro ch hch
      rcases List.mem_append.mp hch with h | h
      · exact hcur ch h
      · have : ch = c := by simpa using h
        rw [this]
        simpa using hc

theorem Fields_clean (s : List Char) : ∀ f ∈ Fields s, cleanSerial f ∧ '\n' ∉ f := by
  intro f hf
  have hns := fieldsFrom_no_space s [] (by simp) f hf
  refine ⟨⟨Fields_ne_nil s f hf, hns⟩, ?_⟩
  intro hmem
  have := hns '\n' hmem
  exact absurd this (by decide)

theorem mem_of_index_eq_ok {α : Type} (xs : List α) (i : Nat) (x : α)
    (h : index xs i = .ok x) : x ∈ xs := by
  unfold index at h
  cases hg : xs.get? i with
  | none => rw [hg] at h; cases h
  | some y =>
    rw [hg] at h
    cases h
    exact List.get?_mem hg

theorem mem_Fields_of_serialOfLine (line s : List Char) (h : serialOfLine line = some s) :
    s ∈ Fields line := by
  unfold serialOfLine at h
  split at h
  · exact List.mem_of_mem_head? h
  · cases h

theorem DeviceList_loop_clean (c : Client) (lines : List (List Char)) :
    ∀ (devices ds : List Device), DeviceList.loop c devices lines = .ok ds →
      (∀ d ∈ devices, cleanSerial d.serial ∧ '\n' ∉ d.serial) →
      ∀ d ∈ ds, cleanSerial d.serial ∧ '\n' ∉ d.serial := by
  induction lines with
  | nil =>
    intro devices ds h hacc
    unfold DeviceList.loop at h
    cases h
    exact hacc
  | cons line0 rest ih =>
    intro devices ds h hacc
    unfold DeviceList.loop at h
    simp only at h
    split at h
    · exact ih devices ds h hacc
    · split at h
      · exact ih devices ds h hacc
      · split at h
        · cases h
        · rename_i f0 hidx
          split at h
          · exact ih devices ds h hacc
          · split at h
            · cases h
            · split at h
              · cases h
              · refine ih _ ds h ?_
                intro d hd
                rcases List.mem_append.mp hd with hd | hd
                · exact hacc d hd
                · rw [List.mem_singleton.mp hd]
                  exact Fields_clean _ f0 (mem_of_index_eq_ok _ 0 f0 hidx)

theorem ForwardList_loop_clean (lines : List (List Char)) :
    ∀ (acc fws : List DeviceForward), ForwardList.loop acc lines = .ok fws →
      (∀ fw ∈ acc, cleanSerial fw.Serial ∧ '\n' ∉ fw.Serial) →
      ∀ fw ∈ fws, cleanSerial fw.Serial ∧ '\n' ∉ fw.Serial := by
  induction lines with
  | nil =>
    intro acc fws h hacc
    unfold ForwardList.loop at h
    cases h
    exact hacc
  | cons line0 rest ih =>
    intro acc fws h hacc
    unfold ForwardList.loop at h
    simp only at h
    split at h
    · exact ih acc fws h hacc
    · split at h
      · cases h
      · rename_i f0 hidx
        split at h
        · cases h
        · split at h
          · cases h
          · refine ih _ fws h ?_
            intro fw hfw
            rcases List.mem_append.mp hfw with hfw | hfw
            · exact hacc fw hfw
            · rw [List.mem_singleton.mp hfw]
              exact Fields_clean _ f0 (mem_of_index_eq_ok _ 0 f0 hidx)

/-- C20: whenever they return, every serial produced by `DeviceSerialList`,
`DeviceList` and `DeviceTracking`, and every `Serial` of a `DeviceForward`
produced by `ForwardList`, is a non-empty string with no white-space code point
and no newline; consequently, in `DeviceList`, whenever `fields[0]` is read the
guard `len(fields[0]) == 0` is false. -/
theorem serials_are_clean (newTransport : NewTransport) (shell : RunShellCommand)
    (visit : Nat → GoMap) (c : Client) (metas : List GoMap) :
    (∀ serials err, (DeviceSerialList newTransport c).result = .ok (serials, err) →
        ∀ s ∈ serials, cleanSerial s ∧ '\n' ∉ s)
    ∧ (∀ devices err, (DeviceList newTransport c).result = .ok (devices, err) →
        ∀ d ∈ devices, cleanSerial d.serial ∧ '\n' ∉ d.serial)
    ∧ (∀ devices err,
        (DeviceTracking newTransport shell visit c metas).result = .ok (devices, err) →
        ∀ d ∈ devices, cleanSerial d.serial ∧ '\n' ∉ d.serial)
    ∧ (∀ fws err, (ForwardList newTransport c).result = .ok (fws, err) →
        ∀ fw ∈ fws, cleanSerial fw.Serial ∧ '\n' ∉ fw.Serial)
    ∧ (∀ (line f0 : List Char), index (Fields (TrimSpace line)) 0 = .ok f0 →
        ¬ f0.length = 0) := by
  refine ⟨?_, ?_, ?_, ?_, ?_⟩
  · intro serials err h s hs
    unfold DeviceSerialList at h
    simp only [DeviceSerialList_loop_eq, List.nil_append, serialOfLine_eq] at h
    split at h
    · cases h
      simp at hs
    · cases h
      obtain ⟨line, _, hline⟩ := List.mem_filterMap.mp hs
      exact Fields_clean line s (mem_Fields_of_serialOfLine line s hline)
  · intro devices err h d hd
    unfold DeviceList at h
    simp only at h
    split at h
    · cases h
      simp at hd
    · split at h
      · cases h
      · rename_i ds hloop
        cases h
        exact DeviceList_loop_clean c _ [] _ hloop (by simp) d hd
  · intro devices err h d hd
    unfold DeviceTracking at h
    simp only [DeviceTracking_serialsLoop_eq, List.nil_append] at h
    split at h
    · cases h
      simp at hd
    · cases h
      have hs : d.serial ∈ (DeviceTracking.devicesLoop shell visit c metas 0 []
          ((Split _ "\n".toList).filterMap serialOfLine)).map Device.serial :=
        List.mem_map_of_mem Device.serial hd
      rw [DeviceTracking_devicesLoop_serials, List.map_nil, List.nil_append] at hs
      obtain ⟨line, _, hline⟩ := List.mem_filterMap.mp hs
      exact Fields_clean line d.serial (mem_Fields_of_serialOfLine line d.serial hline)
  · intro fws err h fw hfw
    unfold ForwardList at h
    simp only at h
    split at h
    · cases h
      simp at hfw
    · split at h
      · cases h
      · rename_i ds hloop
        cases h
        exact ForwardList_loop_clean _ [] _ hloop (by simp) fw hfw
  · intro line f0 h h0
    have hmem := mem_of_index_eq_ok _ 0 f0 h
    exact (Fields_clean _ f0 hmem).1.1 (List.length_eq_zero.mp h0)

/-- The witness of C20: the serial `DeviceList` returns on a line with leading
blanks and tabs between the fields is clean. -/
theorem serials_are_clean_witness :
    cleanSerial "emulator-5554".toList ∧ '\n' ∉ "emulator-5554".toList :=
  (serials_are_clean (okServer "  emulator-5554\tdevice product:sdk\tmodel:x device:g\r\n".toList)
    (sampleShell []) (fun _ => baseMetas) ⟨"localhost".toList, 5037⟩ []).2.1
    [⟨⟨"localhost".toList, 5037⟩, "emulator-5554".toList,
      [("product".toList, "sdk".toList), ("model".toList, "x".toList),
       ("device".toList, "g".toList)]⟩] none (by decide)
    ⟨⟨"localhost".toList, 5037⟩, "emulator-5554".toList,
      [("product".toList, "sdk".toList), ("model".toList, "x".toList),
       ("device".toList, "g".toList)]⟩ (List.mem_singleton_self _)

end Gadb
